import Mathlib

/-!
Verification of the mineos mining engine core against its specification.

This file gives a shallow embedding of the Rust sources
`mineos-hash/src/common/hash_types.rs`, `mineos-core/src/job_queue.rs`,
`mineos-core/src/nonce_manager.rs`, `mineos-core/src/work_distributor.rs`
and `mineos-core/src/share_validator.rs`, together with theorems settling
the specification claims about them.

Modelling conventions:
- Rust u64 / u32 / u8 values are modelled as `Nat`; the source guards that
  decide control flow (for example the nonce-space guard in
  `allocate_range`) are translated literally, so arithmetic never needs to
  wrap inside the guarded region (checked-arithmetic semantics).
- `Instant` timestamps are modelled as `Nat` seconds; `elapsed().as_secs()`
  becomes truncated subtraction `now - t`, which agrees with the source for
  the physically meaningful case `t ≤ now`.
- `HashMap` / `HashSet` are modelled as association lists / membership
  lists with the usual insert / erase / lookup operations; `VecDeque` and
  channels are modelled as lists (front of list = front of the deque /
  oldest element of the channel).
-/

namespace Mineos

/-! ## Hash256 (mineos-hash/src/common/hash_types.rs) -/

/-- 256-bit hash: 32 bytes, index 0 first.  Bytes are `Nat` values; the
well-formedness predicate `Hash256.WF` records the length and byte bounds
of the Rust `[u8; 32]`. -/
structure Hash256 where
  bytes : List Nat
deriving DecidableEq

/-- Well-formedness of a `Hash256`: exactly 32 bytes, each below 256. -/
def Hash256.WF (h : Hash256) : Prop :=
  h.bytes.length = 32 ∧ ∀ b ∈ h.bytes, b < 256

instance : DecidablePred Hash256.WF := by
  intro h
  unfold Hash256.WF
  infer_instance

/-- Core of `Hash256::meets_target`: the Rust loop
`for i in (0..32).rev()` compares bytes from index 31 down to 0, returning
true on the first strictly smaller byte, false on the first strictly
larger byte, and true if all bytes are equal.  This function receives the
byte lists already reversed (most significant first in iteration order). -/
def lexLeBytes : List Nat → List Nat → Bool
  | [], [] => true
  | [], _ :: _ => true
  | _ :: _, [] => true
  | a :: as, b :: bs =>
    if a < b then true
    else if b < a then false
    else lexLeBytes as bs

/-- `Hash256::meets_target` from the source: iterate indices 31 down to 0,
i.e. compare the reversed byte lists. -/
def Hash256.meets_target (h target : Hash256) : Bool :=
  lexLeBytes h.bytes.reverse target.bytes.reverse

/-- Value of a byte list read as a big-endian integer (index 0 is the most
significant byte). -/
def beVal : List Nat → Nat
  | [] => 0
  | b :: rest => b * 256 ^ rest.length + beVal rest

/-- Value of a byte list read as a little-endian integer (index 0 is the
least significant byte). -/
def leVal (l : List Nat) : Nat :=
  beVal l.reverse

theorem beVal_lt (l : List Nat) (hb : ∀ b ∈ l, b < 256) :
    beVal l < 256 ^ l.length := by
  induction l with
  | nil => simp [beVal]
  | cons x t ih =>
    have hx : x < 256 := hb x (List.mem_cons_self x t)
    have ht : beVal t < 256 ^ t.length := ih (fun b hbm => hb b (List.mem_cons_of_mem x hbm))
    have hx1 : x + 1 ≤ 256 := hx
    calc beVal (x :: t) = x * 256 ^ t.length + beVal t := rfl
      _ < x * 256 ^ t.length + 256 ^ t.length := by omega
      _ = (x + 1) * 256 ^ t.length := by ring
      _ ≤ 256 * 256 ^ t.length := Nat.mul_le_mul_right _ hx1
      _ = 256 ^ (x :: t).length := by
          simp [List.length_cons, pow_succ]
          ring

/-- The byte-by-byte comparison loop decides big-endian integer order on
equal-length byte lists. -/
theorem lexLeBytes_eq_beVal_le (a b : List Nat)
    (hlen : a.length = b.length)
    (ha : ∀ x ∈ a, x < 256) (hb : ∀ x ∈ b, x < 256) :
    lexLeBytes a b = decide (beVal a ≤ beVal b) := by
  induction a generalizing b with
  | nil =>
    cases b with
    | nil => simp [lexLeBytes, beVal]
    | cons y bs => simp at hlen
  | cons x as ih =>
    cases b with
    | nil => simp at hlen
    | cons y bs =>
      have hlen' : as.length = bs.length := by simpa using hlen
      have hx : x < 256 := ha x (List.mem_cons_self x as)
      have hy : y < 256 := hb y (List.mem_cons_self y bs)
      have has : ∀ z ∈ as, z < 256 := fun z hz => ha z (List.mem_cons_of_mem x hz)
      have hbs : ∀ z ∈ bs, z < 256 := fun z hz => hb z (List.mem_cons_of_mem y hz)
      have hva : beVal as < 256 ^ as.length := beVal_lt as has
      have hvb : beVal bs < 256 ^ bs.length := beVal_lt bs hbs
      show (if x < y then true else if y < x then false else lexLeBytes as bs)
          = decide (beVal (x :: as) ≤ beVal (y :: bs))
      have hpow : (256 : Nat) ^ as.length = 256 ^ bs.length := by rw [hlen']
      by_cases hxy : x < y
      · have : beVal (x :: as) ≤ beVal (y :: bs) := by
          show x * 256 ^ as.length + beVal as ≤ y * 256 ^ bs.length + beVal bs
          have h1 : x + 1 ≤ y := hxy
          have h2 : (x + 1) * 256 ^ as.length ≤ y * 256 ^ as.length :=
            Nat.mul_le_mul_right _ h1
          have h3 : x * 256 ^ as.length + beVal as < (x + 1) * 256 ^ as.length := by
            have := hva
            nlinarith
          rw [hpow] at h2 h3 ⊢
          omega
        simp [hxy, this]
      · by_cases hyx : y < x
        · have : ¬ (beVal (x :: as) ≤ beVal (y :: bs)) := by
            show ¬ (x * 256 ^ as.length + beVal as ≤ y * 256 ^ bs.length + beVal bs)
            have h1 : y + 1 ≤ x := hyx
            have h2 : (y + 1) * 256 ^ bs.length ≤ x * 256 ^ bs.length :=
              Nat.mul_le_mul_right _ h1
            have h3 : y * 256 ^ bs.length + beVal bs < (y + 1) * 256 ^ bs.length := by
              nlinarith
            rw [hpow] at *
            omega
          simp [hxy, hyx, this]
        · have hxeq : x = y := by omega
          subst hxeq
          have heq : lexLeBytes as bs = decide (beVal as ≤ beVal bs) := ih bs hlen' has hbs
          have : (beVal (x :: as) ≤ beVal (x :: bs)) ↔ (beVal as ≤ beVal bs) := by
            show (x * 256 ^ as.length + beVal as ≤ x * 256 ^ bs.length + beVal bs) ↔ _
            rw [hpow]
            omega
          simp [hxy, hyx, heq, this]

/-- C1 counterexample: the claim reads both hashes as big-endian integers,
but the source compares them as little-endian integers (the loop walks
from byte 31 down to byte 0).  With h = 01 00 ... 00 and
t = 00 ... 00 01, `meets_target` returns true although the big-endian
value of h (2 ^ 248) exceeds the big-endian value of t (1). -/
theorem meets_target_big_endian_cex :
    (Hash256.mk (1 :: List.replicate 31 0)).meets_target
        (Hash256.mk (List.replicate 31 0 ++ [1])) = true
    ∧ ¬ (beVal (1 :: List.replicate 31 0) ≤ beVal (List.replicate 31 0 ++ [1])) := by
  constructor
  · decide
  · decide

/-- C1 (amended): for all well-formed 32-byte hashes h and t,
`Hash256.meets_target h t` returns true if and only if the 256-bit
integer obtained by reading the bytes of h as LITTLE-endian is at most
the 256-bit integer obtained by reading the bytes of t as little-endian
(equality meets the target). -/
theorem meets_target_le_little_endian (h t : Hash256)
    (hh : h.WF) (ht : t.WF) :
    h.meets_target t = true ↔ leVal h.bytes ≤ leVal t.bytes := by
  obtain ⟨hhl, hhb⟩ := hh
  obtain ⟨htl, htb⟩ := ht
  have hlen : h.bytes.reverse.length = t.bytes.reverse.length := by
    simp [hhl, htl]
  have ha : ∀ x ∈ h.bytes.reverse, x < 256 := by
    intro x hx
    exact hhb x (List.mem_reverse.mp hx)
  have hb : ∀ x ∈ t.bytes.reverse, x < 256 := by
    intro x hx
    exact htb x (List.mem_reverse.mp hx)
  have := lexLeBytes_eq_beVal_le h.bytes.reverse t.bytes.reverse hlen ha hb
  unfold Hash256.meets_target leVal
  rw [this]
  exact decide_eq_true_iff

/-- Witness for `meets_target_le_little_endian` at the all-zero hash. -/
theorem meets_target_le_little_endian_witness :
    (Hash256.mk (List.replicate 32 0)).WF ∧
    ((Hash256.mk (List.replicate 32 0)).meets_target (Hash256.mk (List.replicate 32 0)) = true
      ↔ leVal (List.replicate 32 0) ≤ leVal (List.replicate 32 0)) :=
  ⟨by decide,
   meets_target_le_little_endian _ _ (by decide) (by decide)⟩

/-! ## Association-list maps (model of `HashMap<String, _>`) -/

/-- Lookup in an association list (model of `HashMap::get`). -/
def lookupA {α : Type} : List (String × α) → String → Option α
  | [], _ => none
  | (k, v) :: t, j => if k = j then some v else lookupA t j

/-- Insert or replace in an association list (model of `HashMap::insert`
and the write through `entry(..).or_insert(..)`). -/
def insertA {α : Type} : List (String × α) → String → α → List (String × α)
  | [], j, v => [(j, v)]
  | (k, w) :: t, j, v => if k = j then (j, v) :: t else (k, w) :: insertA t j v

/-- Remove a key from an association list (model of `HashMap::remove`). -/
def eraseA {α : Type} : List (String × α) → String → List (String × α)
  | [], _ => []
  | (k, w) :: t, j => if k = j then eraseA t j else (k, w) :: eraseA t j

theorem lookupA_insertA_self {α : Type} (l : List (String × α)) (j : String) (v : α) :
    lookupA (insertA l j v) j = some v := by
  induction l with
  | nil => simp [insertA, lookupA]
  | cons p t ih =>
    obtain ⟨k, w⟩ := p
    by_cases h : k = j
    · simp [insertA, lookupA, h]
    · simp [insertA, lookupA, h, ih]

theorem lookupA_insertA_ne {α : Type} (l : List (String × α)) (j k : String) (v : α)
    (h : k ≠ j) : lookupA (insertA l j v) k = lookupA l k := by
  have hjk : ¬ (j = k) := fun e => h e.symm
  induction l with
  | nil => simp [insertA, lookupA, hjk]
  | cons p t ih =>
    obtain ⟨k', w⟩ := p
    by_cases h1 : k' = j
    · subst h1
      simp [insertA, lookupA, hjk]
    · simp [insertA, lookupA, h1, ih]

theorem lookupA_eraseA_self {α : Type} (l : List (String × α)) (j : String) :
    lookupA (eraseA l j) j = none := by
  induction l with
  | nil => simp [eraseA, lookupA]
  | cons p t ih =>
    obtain ⟨k, w⟩ := p
    by_cases h : k = j <;> simp [eraseA, lookupA, h, ih]

theorem lookupA_eraseA_ne {α : Type} (l : List (String × α)) (j k : String)
    (h : k ≠ j) : lookupA (eraseA l j) k = lookupA l k := by
  have hjk : ¬ (j = k) := fun e => h e.symm
  induction l with
  | nil => simp [eraseA, lookupA]
  | cons p t ih =>
    obtain ⟨k', w⟩ := p
    by_cases h1 : k' = j
    · subst h1
      simp [eraseA, lookupA, hjk, ih]
    · simp [eraseA, lookupA, h1, ih]

/-! ## Nonce manager (mineos-core/src/nonce_manager.rs) -/

/-- `NonceRange`: a range of nonces assigned to a GPU.  The Rust field
`end` is called `endN` here because `end` is a Lean keyword; `start` is
inclusive and `endN` exclusive. -/
structure NonceRange where
  start : Nat
  endN : Nat
  gpu_index : Nat
  job_id : String
deriving DecidableEq

/-- `NonceRange::new(start, size, gpu_index, job_id)`. -/
def NonceRange.new (start size gpu : Nat) (job : String) : NonceRange :=
  ⟨start, start + size, gpu, job⟩

/-- `NonceRange::size`. -/
def NonceRange.size (r : NonceRange) : Nat :=
  r.endN - r.start

/-- `NonceRange::contains`. -/
def NonceRange.contains (r : NonceRange) (nonce : Nat) : Bool :=
  decide (r.start ≤ nonce) && decide (nonce < r.endN)

/-- `NonceRange::split`. -/
def NonceRange.split (r : NonceRange) (a : Nat) : Option (NonceRange × NonceRange) :=
  if a ≤ r.start ∨ r.endN ≤ a then none
  else some (⟨r.start, a, r.gpu_index, r.job_id⟩, ⟨a, r.endN, r.gpu_index, r.job_id⟩)

/-- `NonceManagerConfig`. -/
structure NonceManagerConfig where
  initial_nonce : Nat
  max_nonce : Nat
  default_range_size : Nat
  enable_recycling : Bool
  max_ranges_per_job : Nat

/-- `NonceStats`. -/
structure NonceStats where
  total_ranges_allocated : Nat
  total_nonces_allocated : Nat
  ranges_recycled : Nat
  nonces_recycled : Nat
  active_jobs : Nat
  active_ranges : Nat
  collisions_prevented : Nat
deriving DecidableEq

/-- All-zero `NonceStats::default()`. -/
def NonceStats.init : NonceStats := ⟨0, 0, 0, 0, 0, 0, 0⟩

/-- State of a `NonceManager`: the three maps plus statistics. -/
structure NMState where
  job_offsets : List (String × Nat)
  active_ranges : List (String × List NonceRange)
  recycled_ranges : List (String × List NonceRange)
  stats : NonceStats
deriving DecidableEq

/-- Fresh `NonceManager::new` state: all maps empty. -/
def NMState.init : NMState := ⟨[], [], [], NonceStats.init⟩

/-- Active ranges recorded for a job (`get_active_ranges`). -/
def NMState.activeOf (s : NMState) (job : String) : List NonceRange :=
  (lookupA s.active_ranges job).getD []

/-- Current nonce offset a fresh allocation for `job` would start at:
the stored offset, or `initial_nonce` when the job has no entry yet
(the value `entry(job).or_insert(initial_nonce)` evaluates to). -/
def nmOffset (cfg : NonceManagerConfig) (s : NMState) (job : String) : Nat :=
  (lookupA s.job_offsets job).getD cfg.initial_nonce

/-- Search loop of `get_recycled_range`: find the first queued range with
`size() >= requested_size`, remove it (VecDeque::remove) and return it
together with the remaining queue. -/
def findRemoveSuitable (requested : Nat) : List NonceRange → Option (NonceRange × List NonceRange)
  | [] => none
  | r :: t =>
    if requested ≤ r.size then some (r, t)
    else
      match findRemoveSuitable requested t with
      | none => none
      | some (x, t2) => some (x, r :: t2)

/-- `NonceManager::get_recycled_range`: take a suitable recycled range for
the job, reassign its GPU, and split off the unneeded tail when the range
is more than twice the requested size. -/
def getRecycledRange (s : NMState) (job : String) (gpu requested : Nat) :
    Option NonceRange × NMState :=
  match lookupA s.recycled_ranges job with
  | none => (none, s)
  | some q =>
    match findRemoveSuitable requested q with
    | none => (none, s)
    | some (r0, q2) =>
      if requested * 2 < ({ r0 with gpu_index := gpu } : NonceRange).size then
        match ({ r0 with gpu_index := gpu } : NonceRange).split (r0.start + requested) with
        | some (left, right) =>
          (some left, { s with recycled_ranges := insertA s.recycled_ranges job (q2 ++ [right]) })
        | none =>
          (some { r0 with gpu_index := gpu },
           { s with recycled_ranges := insertA s.recycled_ranges job q2 })
      else
        (some { r0 with gpu_index := gpu },
         { s with recycled_ranges := insertA s.recycled_ranges job q2 })

/-- Fresh-allocation path of `NonceManager::allocate_range` (the code after
the recycling fast path): check the nonce-space guard, advance the job
offset, then check the per-job range cap before recording the new range.
Note that on the range-cap failure path the job offset has already been
advanced, exactly as in the source. -/
def allocFresh (cfg : NonceManagerConfig) (s1 : NMState) (job : String) (gpu size : Nat) :
    Option NonceRange × NMState :=
  if cfg.max_nonce < nmOffset cfg s1 job + size then
    (none, { s1 with job_offsets := insertA s1.job_offsets job (nmOffset cfg s1 job) })
  else if cfg.max_ranges_per_job ≤ (s1.activeOf job).length then
    (none,
     { s1 with
       job_offsets := insertA s1.job_offsets job (nmOffset cfg s1 job + size)
       active_ranges := insertA s1.active_ranges job (s1.activeOf job) })
  else
    (some (NonceRange.new (nmOffset cfg s1 job) size gpu job),
     { s1 with
       job_offsets := insertA s1.job_offsets job (nmOffset cfg s1 job + size)
       active_ranges := insertA s1.active_ranges job
         (s1.activeOf job ++ [NonceRange.new (nmOffset cfg s1 job) size gpu job])
       stats := { s1.stats with
         total_ranges_allocated := s1.stats.total_ranges_allocated + 1
         total_nonces_allocated := s1.stats.total_nonces_allocated + size
         active_jobs := (insertA s1.job_offsets job (nmOffset cfg s1 job + size)).length
         active_ranges := ((insertA s1.active_ranges job
           (s1.activeOf job ++ [NonceRange.new (nmOffset cfg s1 job) size gpu job])).map
             (fun p => p.2.length)).sum } })

/-- `NonceManager::allocate_range`: try the recycling fast path first (when
enabled), then fall back to a fresh allocation. -/
def allocate_range (cfg : NonceManagerConfig) (s : NMState) (job : String) (gpu : Nat)
    (requested_size : Option Nat) : Option NonceRange × NMState :=
  match (if cfg.enable_recycling
         then (getRecycledRange s job gpu (requested_size.getD cfg.default_range_size)).1
         else none) with
  | some r =>
    (some r,
     if cfg.enable_recycling
     then (getRecycledRange s job gpu (requested_size.getD cfg.default_range_size)).2
     else s)
  | none =>
    allocFresh cfg
      (if cfg.enable_recycling
       then (getRecycledRange s job gpu (requested_size.getD cfg.default_range_size)).2
       else s)
      job gpu (requested_size.getD cfg.default_range_size)

/-- Removal step of `complete_range`: when the job has an active-range
entry, retain only the ranges different from the completed one. -/
def removeRangeA (m : List (String × List NonceRange)) (job : String)
    (range : NonceRange) : List (String × List NonceRange) :=
  match lookupA m job with
  | none => m
  | some rs => insertA m job (rs.filter (fun r => r ≠ range))

/-- `NonceManager::complete_range`: drop the range from the active set of
the job (when the job has one) and, when recycling is enabled, append it
to the recycled queue of the job. -/
def complete_range (cfg : NonceManagerConfig) (s : NMState) (job : String)
    (range : NonceRange) : NMState :=
  if cfg.enable_recycling then
    { s with
      active_ranges := removeRangeA s.active_ranges job range
      recycled_ranges := insertA s.recycled_ranges job
        (((lookupA s.recycled_ranges job).getD []) ++ [range])
      stats := { s.stats with
        ranges_recycled := s.stats.ranges_recycled + 1
        nonces_recycled := s.stats.nonces_recycled + range.size } }
  else
    { s with active_ranges := removeRangeA s.active_ranges job range }

/-- `NonceManager::release_gpu_ranges`: collect every active range of the
GPU across all jobs and complete each of them. -/
def release_gpu_ranges (cfg : NonceManagerConfig) (s : NMState) (gpu : Nat) : NMState :=
  let pairs := s.active_ranges.flatMap
    (fun p => (p.2.filter (fun r => r.gpu_index = gpu)).map (fun r => (p.1, r)))
  pairs.foldl (fun acc p => complete_range cfg acc p.1 p.2) s

/-- `NonceManager::clear_job`: remove the job from all three maps. -/
def clear_job (s : NMState) (job : String) : NMState :=
  { s with
    job_offsets := eraseA s.job_offsets job
    active_ranges := eraseA s.active_ranges job
    recycled_ranges := eraseA s.recycled_ranges job
    stats := { s.stats with
      active_jobs := (eraseA s.job_offsets job).length
      active_ranges := ((eraseA s.active_ranges job).map (fun p => p.2.length)).sum } }

/-- `NonceManager::is_nonce_allocated`. -/
def is_nonce_allocated (s : NMState) (job : String) (nonce : Nat) : Bool :=
  match lookupA s.active_ranges job with
  | none => false
  | some rs => rs.any (fun r => r.contains nonce)

/-- One operation of the nonce-manager interface. -/
inductive NMOp where
  | alloc (job : String) (gpu : Nat) (requested : Option Nat)
  | complete (job : String) (range : NonceRange)
  | release (gpu : Nat)
  | clear (job : String)

/-- Effect of one operation on the state. -/
def NMStep (cfg : NonceManagerConfig) (s : NMState) : NMOp → NMState
  | .alloc j g r => (allocate_range cfg s j g r).2
  | .complete j r => complete_range cfg s j r
  | .release g => release_gpu_ranges cfg s g
  | .clear j => clear_job s j

/-- State reached after a sequence of operations from a fresh manager. -/
def NMRun (cfg : NonceManagerConfig) (ops : List NMOp) : NMState :=
  ops.foldl (NMStep cfg) NMState.init

/-- Two ranges are disjoint as half-open intervals: no nonce lies in both. -/
def RangeDisjoint (r q : NonceRange) : Prop :=
  ∀ n, r.contains n = true → q.contains n = false

theorem getRecycledRange_active (s : NMState) (job : String) (gpu n : Nat) :
    ((getRecycledRange s job gpu n).2).active_ranges = s.active_ranges := by
  unfold getRecycledRange
  split
  · rfl
  · split
    · rfl
    · split
      · split <;> rfl
      · rfl

theorem getRecycledRange_offsets (s : NMState) (job : String) (gpu n : Nat) :
    ((getRecycledRange s job gpu n).2).job_offsets = s.job_offsets := by
  unfold getRecycledRange
  split
  · rfl
  · split
    · rfl
    · split
      · split <;> rfl
      · rfl

/-- The disjointness invariant for the nonce manager: for every job, all
active ranges end at or before the current allocation offset of that job,
and the active ranges are pairwise disjoint. -/
def NMInv (cfg : NonceManagerConfig) (s : NMState) : Prop :=
  ∀ j, (∀ r ∈ s.activeOf j, r.endN ≤ nmOffset cfg s j)
    ∧ (s.activeOf j).Pairwise RangeDisjoint

theorem NMInv_of_eq (cfg : NonceManagerConfig) (s t : NMState)
    (ha : t.active_ranges = s.active_ranges) (ho : t.job_offsets = s.job_offsets)
    (h : NMInv cfg s) : NMInv cfg t := by
  intro j
  have h1 : t.activeOf j = s.activeOf j := by
    unfold NMState.activeOf
    rw [ha]
  have h2 : nmOffset cfg t j = nmOffset cfg s j := by
    unfold nmOffset
    rw [ho]
  rw [h1, h2]
  exact h j

theorem NMInv_init (cfg : NonceManagerConfig) : NMInv cfg NMState.init := by
  intro j
  constructor
  · intro r hr
    simp [NMState.activeOf, NMState.init, lookupA] at hr
  · simp [NMState.activeOf, NMState.init, lookupA]

theorem NMInv_allocFresh (cfg : NonceManagerConfig) (s1 : NMState) (job : String)
    (gpu size : Nat) (h1 : NMInv cfg s1) :
    NMInv cfg (allocFresh cfg s1 job gpu size).2 := by
  unfold allocFresh
  by_cases hguard : cfg.max_nonce < nmOffset cfg s1 job + size
  · rw [if_pos hguard]
    show NMInv cfg { s1 with job_offsets := insertA s1.job_offsets job (nmOffset cfg s1 job) }
    intro j
    rcases h1 j with ⟨he, hp⟩
    by_cases hj : j = job
    · subst hj
      refine ⟨?_, hp⟩
      intro r hr
      have hoff : nmOffset cfg
          { s1 with job_offsets := insertA s1.job_offsets j (nmOffset cfg s1 j) } j
          = nmOffset cfg s1 j := by
        simp [nmOffset, lookupA_insertA_self]
      rw [hoff]
      exact he r hr
    · refine ⟨?_, hp⟩
      intro r hr
      have hoff : nmOffset cfg
          { s1 with job_offsets := insertA s1.job_offsets job (nmOffset cfg s1 job) } j
          = nmOffset cfg s1 j := by
        simp [nmOffset, lookupA_insertA_ne _ _ _ _ hj]
      rw [hoff]
      exact he r hr
  · rw [if_neg hguard]
    by_cases hcap : cfg.max_ranges_per_job ≤ (s1.activeOf job).length
    · rw [if_pos hcap]
      show NMInv cfg
        { s1 with
          job_offsets := insertA s1.job_offsets job (nmOffset cfg s1 job + size)
          active_ranges := insertA s1.active_ranges job (s1.activeOf job) }
      intro j
      rcases h1 j with ⟨he, hp⟩
      by_cases hj : j = job
      · subst hj
        have hact : NMState.activeOf
            { s1 with
              job_offsets := insertA s1.job_offsets j (nmOffset cfg s1 j + size)
              active_ranges := insertA s1.active_ranges j (s1.activeOf j) } j
            = s1.activeOf j := by
          simp [NMState.activeOf, lookupA_insertA_self]
        have hoff : nmOffset cfg
            { s1 with
              job_offsets := insertA s1.job_offsets j (nmOffset cfg s1 j + size)
              active_ranges := insertA s1.active_ranges j (s1.activeOf j) } j
            = nmOffset cfg s1 j + size := by
          simp [nmOffset, lookupA_insertA_self]
        rw [hact, hoff]
        refine ⟨?_, hp⟩
        intro r hr
        have := he r hr
        omega
      · have hact : NMState.activeOf
            { s1 with
              job_offsets := insertA s1.job_offsets job (nmOffset cfg s1 job + size)
              active_ranges := insertA s1.active_ranges job (s1.activeOf job) } j
            = s1.activeOf j := by
          simp [NMState.activeOf, lookupA_insertA_ne _ _ _ _ hj]
        have hoff : nmOffset cfg
            { s1 with
              job_offsets := insertA s1.job_offsets job (nmOffset cfg s1 job + size)
              active_ranges := insertA s1.active_ranges job (s1.activeOf job) } j
            = nmOffset cfg s1 j := by
          simp [nmOffset, lookupA_insertA_ne _ _ _ _ hj]
        rw [hact, hoff]
        exact ⟨he, hp⟩
    · rw [if_neg hcap]
      show NMInv cfg
        { s1 with
          job_offsets := insertA s1.job_offsets job (nmOffset cfg s1 job + size)
          active_ranges := insertA s1.active_ranges job
            (s1.activeOf job ++ [NonceRange.new (nmOffset cfg s1 job) size gpu job])
          stats := { s1.stats with
            total_ranges_allocated := s1.stats.total_ranges_allocated + 1
            total_nonces_allocated := s1.stats.total_nonces_allocated + size
            active_jobs := (insertA s1.job_offsets job (nmOffset cfg s1 job + size)).length
            active_ranges := ((insertA s1.active_ranges job
              (s1.activeOf job ++ [NonceRange.new (nmOffset cfg s1 job) size gpu job])).map
                (fun p => p.2.length)).sum } }
      intro j
      rcases h1 j with ⟨he, hp⟩
      by_cases hj : j = job
      · subst hj
        have hact : NMState.activeOf
            { s1 with
              job_offsets := insertA s1.job_offsets j (nmOffset cfg s1 j + size)
              active_ranges := insertA s1.active_ranges j
                (s1.activeOf j ++ [NonceRange.new (nmOffset cfg s1 j) size gpu j])
              stats := { s1.stats with
                total_ranges_allocated := s1.stats.total_ranges_allocated + 1
                total_nonces_allocated := s1.stats.total_nonces_allocated + size
                active_jobs := (insertA s1.job_offsets j (nmOffset cfg s1 j + size)).length
                active_ranges := ((insertA s1.active_ranges j
                  (s1.activeOf j ++ [NonceRange.new (nmOffset cfg s1 j) size gpu j])).map
                    (fun p => p.2.length)).sum } } j
            = s1.activeOf j ++ [NonceRange.new (nmOffset cfg s1 j) size gpu j] := by
          simp [NMState.activeOf, lookupA_insertA_self]
        have hoff : nmOffset cfg
            { s1 with
              job_offsets := insertA s1.job_offsets j (nmOffset cfg s1 j + size)
              active_ranges := insertA s1.active_ranges j
                (s1.activeOf j ++ [NonceRange.new (nmOffset cfg s1 j) size gpu j])
              stats := { s1.stats with
                total_ranges_allocated := s1.stats.total_ranges_allocated + 1
                total_nonces_allocated := s1.stats.total_nonces_allocated + size
                active_jobs := (insertA s1.job_offsets j (nmOffset cfg s1 j + size)).length
                active_ranges := ((insertA s1.active_ranges j
                  (s1.activeOf j ++ [NonceRange.new (nmOffset cfg s1 j) size gpu j])).map
                    (fun p => p.2.length)).sum } } j
            = nmOffset cfg s1 j + size := by
          simp [nmOffset, lookupA_insertA_self]
        rw [hact, hoff]
        constructor
        · intro r hr
          rcases List.mem_append.mp hr with hr1 | hr2
          · have := he r hr1
            omega
          · have hr3 : r = NonceRange.new (nmOffset cfg s1 j) size gpu j := by
              simpa using hr2
            subst hr3
            simp [NonceRange.new]
        · rw [List.pairwise_append]
          refine ⟨hp, List.pairwise_singleton _ _, ?_⟩
          intro a ha b hb
          have hb1 : b = NonceRange.new (nmOffset cfg s1 j) size gpu j := by
            simpa using hb
          subst hb1
          intro n hn
          have hend : a.endN ≤ nmOffset cfg s1 j := he a ha
          simp [NonceRange.contains] at hn
          simp [NonceRange.contains, NonceRange.new]
          omega
      · have hact : NMState.activeOf
            { s1 with
              job_offsets := insertA s1.job_offsets job (nmOffset cfg s1 job + size)
              active_ranges := insertA s1.active_ranges job
                (s1.activeOf job ++ [NonceRange.new (nmOffset cfg s1 job) size gpu job])
              stats := { s1.stats with
                total_ranges_allocated := s1.stats.total_ranges_allocated + 1
                total_nonces_allocated := s1.stats.total_nonces_allocated + size
                active_jobs := (insertA s1.job_offsets job (nmOffset cfg s1 job + size)).length
                active_ranges := ((insertA s1.active_ranges job
                  (s1.activeOf job ++ [NonceRange.new (nmOffset cfg s1 job) size gpu job])).map
                    (fun p => p.2.length)).sum } } j
            = s1.activeOf j := by
          simp [NMState.activeOf, lookupA_insertA_ne _ _ _ _ hj]
        have hoff : nmOffset cfg
            { s1 with
              job_offsets := insertA s1.job_offsets job (nmOffset cfg s1 job + size)
              active_ranges := insertA s1.active_ranges job
                (s1.activeOf job ++ [NonceRange.new (nmOffset cfg s1 job) size gpu job])
              stats := { s1.stats with
                total_ranges_allocated := s1.stats.total_ranges_allocated + 1
                total_nonces_allocated := s1.stats.total_nonces_allocated + size
                active_jobs := (insertA s1.job_offsets job (nmOffset cfg s1 job + size)).length
                active_ranges := ((insertA s1.active_ranges job
                  (s1.activeOf job ++ [NonceRange.new (nmOffset cfg s1 job) size gpu job])).map
                    (fun p => p.2.length)).sum } } j
            = nmOffset cfg s1 j := by
          simp [nmOffset, lookupA_insertA_ne _ _ _ _ hj]
        rw [hact, hoff]
        exact ⟨he, hp⟩

theorem NMInv_allocate (cfg : NonceManagerConfig) (s : NMState) (job : String)
    (gpu : Nat) (req : Option Nat) (h : NMInv cfg s) :
    NMInv cfg (allocate_range cfg s job gpu req).2 := by
  unfold allocate_range
  by_cases hrec : cfg.enable_recycling = true
  · simp only [hrec, if_true]
    have hgrr : NMInv cfg
        (getRecycledRange s job gpu (req.getD cfg.default_range_size)).2 :=
      NMInv_of_eq cfg s _ (getRecycledRange_active s job gpu _)
        (getRecycledRange_offsets s job gpu _) h
    rcases hr : (getRecycledRange s job gpu (req.getD cfg.default_range_size)).1 with _ | r
    · simp only [hr]
      exact NMInv_allocFresh cfg _ job gpu _ hgrr
    · simp only [hr]
      exact hgrr
  · have hrec2 : cfg.enable_recycling = false := by
      revert hrec
      cases cfg.enable_recycling <;> simp
    simp only [hrec2, Bool.false_eq_true, if_false]
    exact NMInv_allocFresh cfg s job gpu _ h

theorem activeOf_removeRangeA_self (m : List (String × List NonceRange))
    (job : String) (range : NonceRange) :
    (lookupA (removeRangeA m job range) job).getD []
      = ((lookupA m job).getD []).filter (fun r => r ≠ range) := by
  unfold removeRangeA
  rcases hq : lookupA m job with _ | rs
  · simp [hq]
  · simp [hq, lookupA_insertA_self]

theorem lookupA_removeRangeA_ne (m : List (String × List NonceRange))
    (job k : String) (range : NonceRange) (h : k ≠ job) :
    lookupA (removeRangeA m job range) k = lookupA m k := by
  unfold removeRangeA
  rcases hq : lookupA m job with _ | rs
  · rfl
  · exact lookupA_insertA_ne _ _ _ _ h

theorem NMInv_remove_active (cfg : NonceManagerConfig) (s t : NMState)
    (job : String) (range : NonceRange)
    (ha : t.active_ranges = removeRangeA s.active_ranges job range)
    (ho : t.job_offsets = s.job_offsets)
    (h : NMInv cfg s) : NMInv cfg t := by
  intro j
  rcases h j with ⟨he, hp⟩
  have hoff : nmOffset cfg t j = nmOffset cfg s j := by
    unfold nmOffset
    rw [ho]
  by_cases hj : j = job
  · subst hj
    have hact : t.activeOf j = (s.activeOf j).filter (fun r => r ≠ range) := by
      unfold NMState.activeOf
      rw [ha]
      exact activeOf_removeRangeA_self s.active_ranges j range
    rw [hact, hoff]
    constructor
    · intro r hr
      exact he r (List.mem_of_mem_filter hr)
    · exact hp.sublist (List.filter_sublist _)
  · have hact : t.activeOf j = s.activeOf j := by
      unfold NMState.activeOf
      rw [ha, lookupA_removeRangeA_ne _ _ _ _ hj]
    rw [hact, hoff]
    exact ⟨he, hp⟩

theorem NMInv_complete (cfg : NonceManagerConfig) (s : NMState) (job : String)
    (range : NonceRange) (h : NMInv cfg s) :
    NMInv cfg (complete_range cfg s job range) := by
  unfold complete_range
  by_cases hrec : cfg.enable_recycling = true
  · rw [if_pos hrec]
    exact NMInv_remove_active cfg s _ job range rfl rfl h
  · rw [if_neg hrec]
    exact NMInv_remove_active cfg s _ job range rfl rfl h

theorem NMInv_foldl_complete (cfg : NonceManagerConfig)
    (pairs : List (String × NonceRange)) (s : NMState) (h : NMInv cfg s) :
    NMInv cfg (pairs.foldl (fun acc p => complete_range cfg acc p.1 p.2) s) := by
  induction pairs generalizing s with
  | nil => exact h
  | cons p t ih => exact ih _ (NMInv_complete cfg s p.1 p.2 h)

theorem NMInv_release (cfg : NonceManagerConfig) (s : NMState) (gpu : Nat)
    (h : NMInv cfg s) : NMInv cfg (release_gpu_ranges cfg s gpu) := by
  unfold release_gpu_ranges
  exact NMInv_foldl_complete cfg _ s h

theorem NMInv_clear (cfg : NonceManagerConfig) (s : NMState) (job : String)
    (h : NMInv cfg s) : NMInv cfg (clear_job s job) := by
  unfold clear_job
  intro j
  rcases h j with ⟨he, hp⟩
  by_cases hj : j = job
  · subst hj
    have hact : NMState.activeOf
        { s with
          job_offsets := eraseA s.job_offsets j
          active_ranges := eraseA s.active_ranges j
          recycled_ranges := eraseA s.recycled_ranges j
          stats := { s.stats with
            active_jobs := (eraseA s.job_offsets j).length
            active_ranges := ((eraseA s.active_ranges j).map (fun p => p.2.length)).sum } } j
        = [] := by
      simp [NMState.activeOf, lookupA_eraseA_self]
    rw [hact]
    simp
  · have hact : NMState.activeOf
        { s with
          job_offsets := eraseA s.job_offsets job
          active_ranges := eraseA s.active_ranges job
          recycled_ranges := eraseA s.recycled_ranges job
          stats := { s.stats with
            active_jobs := (eraseA s.job_offsets job).length
            active_ranges := ((eraseA s.active_ranges job).map (fun p => p.2.length)).sum } } j
        = s.activeOf j := by
      simp [NMState.activeOf, lookupA_eraseA_ne _ _ _ hj]
    have hoff : nmOffset cfg
        { s with
          job_offsets := eraseA s.job_offsets job
          active_ranges := eraseA s.active_ranges job
          recycled_ranges := eraseA s.recycled_ranges job
          stats := { s.stats with
            active_jobs := (eraseA s.job_offsets job).length
            active_ranges := ((eraseA s.active_ranges job).map (fun p => p.2.length)).sum } } j
        = nmOffset cfg s j := by
      simp [nmOffset, lookupA_eraseA_ne _ _ _ hj]
    rw [hact, hoff]
    exact ⟨he, hp⟩

theorem NMInv_step (cfg : NonceManagerConfig) (s : NMState) (op : NMOp)
    (h : NMInv cfg s) : NMInv cfg (NMStep cfg s op) := by
  cases op with
  | alloc j g r => exact NMInv_allocate cfg s j g r h
  | complete j r => exact NMInv_complete cfg s j r h
  | release g => exact NMInv_release cfg s g h
  | clear j => exact NMInv_clear cfg s j h

theorem NMInv_run (cfg : NonceManagerConfig) (ops : List NMOp) :
    NMInv cfg (NMRun cfg ops) := by
  unfold NMRun
  have hfold : ∀ (l : List NMOp) (s : NMState), NMInv cfg s →
      NMInv cfg (l.foldl (NMStep cfg) s) := by
    intro l
    induction l with
    | nil => intro s hs; exact hs
    | cons op t ih => intro s hs; exact ih _ (NMInv_step cfg s op hs)
  exact hfold ops NMState.init (NMInv_init cfg)

/-- C5: for every configuration, every job id and every state of the nonce
manager reachable by any sequence of allocate_range, complete_range,
release_gpu_ranges and clear_job operations from a fresh manager, any two
NonceRanges simultaneously present in the active-range set of that job are
disjoint as half-open intervals [start, end). -/
theorem nonce_active_ranges_disjoint (cfg : NonceManagerConfig)
    (ops : List NMOp) (job : String) :
    ((NMRun cfg ops).activeOf job).Pairwise RangeDisjoint :=
  (NMInv_run cfg ops job).2

theorem allocate_range_norec (cfg : NonceManagerConfig) (s : NMState) (job : String)
    (gpu : Nat) (req : Option Nat) (hrec : cfg.enable_recycling = false) :
    allocate_range cfg s job gpu req
      = allocFresh cfg s job gpu (req.getD cfg.default_range_size) := by
  unfold allocate_range
  simp [hrec]

theorem allocFresh_offset_mono (cfg : NonceManagerConfig) (s1 : NMState) (job : String)
    (gpu size : Nat) (j : String) :
    nmOffset cfg s1 j ≤ nmOffset cfg (allocFresh cfg s1 job gpu size).2 j := by
  unfold allocFresh
  by_cases hguard : cfg.max_nonce < nmOffset cfg s1 job + size
  · rw [if_pos hguard]
    by_cases hj : j = job
    · subst hj
      simp [nmOffset, lookupA_insertA_self]
    · simp [nmOffset, lookupA_insertA_ne _ _ _ _ hj]
  · rw [if_neg hguard]
    by_cases hcap : cfg.max_ranges_per_job ≤ (s1.activeOf job).length
    · rw [if_pos hcap]
      by_cases hj : j = job
      · subst hj
        have : nmOffset cfg
            { s1 with
              job_offsets := insertA s1.job_offsets j (nmOffset cfg s1 j + size)
              active_ranges := insertA s1.active_ranges j (s1.activeOf j) } j
            = nmOffset cfg s1 j + size := by
          simp [nmOffset, lookupA_insertA_self]
        rw [this]
        omega
      · have : nmOffset cfg
            { s1 with
              job_offsets := insertA s1.job_offsets job (nmOffset cfg s1 job + size)
              active_ranges := insertA s1.active_ranges job (s1.activeOf job) } j
            = nmOffset cfg s1 j := by
          simp [nmOffset, lookupA_insertA_ne _ _ _ _ hj]
        rw [this]
    · rw [if_neg hcap]
      by_cases hj : j = job
      · subst hj
        have : nmOffset cfg (allocFresh cfg s1 j gpu size).2 j
            = nmOffset cfg s1 j + size := by
          unfold allocFresh
          rw [if_neg hguard, if_neg hcap]
          simp [nmOffset, lookupA_insertA_self]
        calc nmOffset cfg s1 j ≤ nmOffset cfg s1 j + size := Nat.le_add_right _ _
          _ = nmOffset cfg (allocFresh cfg s1 j gpu size).2 j := this.symm
          _ ≤ _ := by
              unfold allocFresh
              rw [if_neg hguard, if_neg hcap]
      · simp [nmOffset, lookupA_insertA_ne _ _ _ _ hj]

theorem allocFresh_success (cfg : NonceManagerConfig) (s1 : NMState) (job : String)
    (gpu size : Nat) (r : NonceRange)
    (h : (allocFresh cfg s1 job gpu size).1 = some r) :
    r.start = nmOffset cfg s1 job ∧
    nmOffset cfg (allocFresh cfg s1 job gpu size).2 job = nmOffset cfg s1 job + size := by
  unfold allocFresh at h ⊢
  by_cases hguard : cfg.max_nonce < nmOffset cfg s1 job + size
  · rw [if_pos hguard] at h
    simp at h
  · rw [if_neg hguard] at h ⊢
    by_cases hcap : cfg.max_ranges_per_job ≤ (s1.activeOf job).length
    · rw [if_pos hcap] at h
      simp at h
    · rw [if_neg hcap] at h ⊢
      have hr : r = NonceRange.new (nmOffset cfg s1 job) size gpu job := by
        simpa using h.symm
      subst hr
      constructor
      · rfl
      · simp [nmOffset, lookupA_insertA_self]

theorem allocate_offset_mono_norec (cfg : NonceManagerConfig) (s : NMState)
    (job : String) (gpu : Nat) (req : Option Nat) (j : String)
    (hrec : cfg.enable_recycling = false) :
    nmOffset cfg s j ≤ nmOffset cfg (allocate_range cfg s job gpu req).2 j := by
  rw [allocate_range_norec cfg s job gpu req hrec]
  exact allocFresh_offset_mono cfg s job gpu _ j

/-- One call of the allocate_range interface: arguments of a single
`allocate_range(job_id, gpu_index, requested_size)` invocation. -/
structure AllocCall where
  job : String
  gpu : Nat
  requested : Option Nat

/-- Effective size of a call: the requested size, or the configured
default when the caller passed `None`. -/
def effSize (cfg : NonceManagerConfig) (c : AllocCall) : Nat :=
  c.requested.getD cfg.default_range_size

/-- Ranges returned by the successful calls for job `j` in a sequence of
`allocate_range` calls executed from state `s`, in call order. -/
def allocSuccessesFor (cfg : NonceManagerConfig) (j : String) :
    NMState → List AllocCall → List NonceRange
  | _, [] => []
  | s, c :: t =>
    match (allocate_range cfg s c.job c.gpu c.requested).1 with
    | some r =>
      if c.job = j then
        r :: allocSuccessesFor cfg j (allocate_range cfg s c.job c.gpu c.requested).2 t
      else
        allocSuccessesFor cfg j (allocate_range cfg s c.job c.gpu c.requested).2 t
    | none => allocSuccessesFor cfg j (allocate_range cfg s c.job c.gpu c.requested).2 t

theorem allocSuccessesFor_start_ge (cfg : NonceManagerConfig) (j : String)
    (calls : List AllocCall) (hrec : cfg.enable_recycling = false) :
    ∀ (s : NMState), ∀ r ∈ allocSuccessesFor cfg j s calls, nmOffset cfg s j ≤ r.start := by
  induction calls with
  | nil =>
    intro s r hr
    simp [allocSuccessesFor] at hr
  | cons c t ih =>
    intro s r hr
    have hmono : nmOffset cfg s j
        ≤ nmOffset cfg (allocate_range cfg s c.job c.gpu c.requested).2 j :=
      allocate_offset_mono_norec cfg s c.job c.gpu c.requested j hrec
    rw [allocSuccessesFor] at hr
    rcases hres : (allocate_range cfg s c.job c.gpu c.requested).1 with _ | r0
    · simp only [hres] at hr
      exact le_trans hmono (ih _ r hr)
    · simp only [hres] at hr
      by_cases hcj : c.job = j
      · rw [if_pos hcj] at hr
        rcases List.mem_cons.mp hr with hr1 | hr2
        · subst hr1
          have hs : (allocFresh cfg s c.job c.gpu (c.requested.getD cfg.default_range_size)).1
              = some r := by
            rw [← allocate_range_norec cfg s c.job c.gpu c.requested hrec]
            exact hres
          have := (allocFresh_success cfg s c.job c.gpu _ r hs).1
          rw [this, hcj]
        · exact le_trans hmono (ih _ r hr2)
      · rw [if_neg hcj] at hr
        exact le_trans hmono (ih _ r hr)

/-- C7: with recycling disabled, the ranges returned by any sequence of
successful allocate_range calls for the same job id with positive
effective sizes have strictly increasing start values in call order. -/
theorem alloc_starts_strict_mono (cfg : NonceManagerConfig) (j : String)
    (calls : List AllocCall) (s : NMState)
    (hrec : cfg.enable_recycling = false)
    (hpos : ∀ c ∈ calls, 0 < effSize cfg c) :
    (allocSuccessesFor cfg j s calls).Pairwise (fun a b => a.start < b.start) := by
  induction calls generalizing s with
  | nil => simp [allocSuccessesFor]
  | cons c t ih =>
    have hposc : 0 < effSize cfg c := hpos c (List.mem_cons_self c t)
    have hpost : ∀ x ∈ t, 0 < effSize cfg x := fun x hx => hpos x (List.mem_cons_of_mem c hx)
    rw [allocSuccessesFor]
    rcases hres : (allocate_range cfg s c.job c.gpu c.requested).1 with _ | r0
    · simp only [hres]
      exact ih _ hpost
    · simp only [hres]
      by_cases hcj : c.job = j
      · subst hcj
        rw [if_pos rfl]
        rw [List.pairwise_cons]
        constructor
        · intro b hb
          have hs : (allocFresh cfg s c.job c.gpu (c.requested.getD cfg.default_range_size)).1
              = some r0 := by
            rw [← allocate_range_norec cfg s c.job c.gpu c.requested hrec]
            exact hres
          have hsucc := allocFresh_success cfg s c.job c.gpu _ r0 hs
          have hofft : nmOffset cfg (allocate_range cfg s c.job c.gpu c.requested).2 c.job
              = nmOffset cfg s c.job + c.requested.getD cfg.default_range_size := by
            rw [allocate_range_norec cfg s c.job c.gpu c.requested hrec]
            exact hsucc.2
          have hge := allocSuccessesFor_start_ge cfg c.job t hrec
            (allocate_range cfg s c.job c.gpu c.requested).2 b hb
          have hr0 : r0.start = nmOffset cfg s c.job := hsucc.1
          have hsz : 0 < c.requested.getD cfg.default_range_size := hposc
          omega
        · exact ih _ hpost
      · rw [if_neg hcj]
        exact ih _ hpost

/-- Witness for `alloc_starts_strict_mono` at a two-call sequence. -/
theorem alloc_starts_strict_mono_witness :
    ((⟨0, 1000000, 100, false, 10⟩ : NonceManagerConfig).enable_recycling = false) ∧
    (∀ c ∈ [(⟨"j1", 0, some 5⟩ : AllocCall), ⟨"j1", 1, some 7⟩],
      0 < effSize ⟨0, 1000000, 100, false, 10⟩ c) ∧
    (allocSuccessesFor ⟨0, 1000000, 100, false, 10⟩ "j1" NMState.init
        [⟨"j1", 0, some 5⟩, ⟨"j1", 1, some 7⟩]).Pairwise
      (fun a b => a.start < b.start) :=
  ⟨by decide, by decide,
   alloc_starts_strict_mono ⟨0, 1000000, 100, false, 10⟩ "j1"
     [⟨"j1", 0, some 5⟩, ⟨"j1", 1, some 7⟩] NMState.init (by decide) (by decide)⟩

/-- C9: whenever allocate_range fails because the active-range count of
the job has reached max_ranges_per_job (the recycling fast path having
produced nothing and the nonce-space guard passing), the call returns None
and the job offset has nevertheless been advanced by the effective
requested size. -/
theorem alloc_cap_failure_advances_offset (cfg : NonceManagerConfig) (s : NMState)
    (job : String) (gpu : Nat) (req : Option Nat)
    (hrec : cfg.enable_recycling = true →
      (getRecycledRange s job gpu (req.getD cfg.default_range_size)).1 = none)
    (hspace : nmOffset cfg s job + req.getD cfg.default_range_size ≤ cfg.max_nonce)
    (hcap : cfg.max_ranges_per_job ≤ (s.activeOf job).length) :
    (allocate_range cfg s job gpu req).1 = none ∧
    nmOffset cfg (allocate_range cfg s job gpu req).2 job
      = nmOffset cfg s job + req.getD cfg.default_range_size := by
  have hfresh : ∀ s1 : NMState,
      nmOffset cfg s1 job = nmOffset cfg s job →
      s1.activeOf job = s.activeOf job →
      (allocFresh cfg s1 job gpu (req.getD cfg.default_range_size)).1 = none ∧
      nmOffset cfg (allocFresh cfg s1 job gpu (req.getD cfg.default_range_size)).2 job
        = nmOffset cfg s job + req.getD cfg.default_range_size := by
    intro s1 ho ha
    unfold allocFresh
    rw [ho, ha]
    rw [if_neg (by omega), if_pos hcap]
    refine ⟨rfl, ?_⟩
    simp [nmOffset, lookupA_insertA_self, ho]
  by_cases hr : cfg.enable_recycling = true
  · have hnone := hrec hr
    have hact := getRecycledRange_active s job gpu (req.getD cfg.default_range_size)
    have hoffs := getRecycledRange_offsets s job gpu (req.getD cfg.default_range_size)
    unfold allocate_range
    simp only [hr, if_true, hnone]
    exact hfresh _ (by unfold nmOffset; rw [hoffs]) (by unfold NMState.activeOf; rw [hact])
  · have hr2 : cfg.enable_recycling = false := by
      revert hr
      cases cfg.enable_recycling <;> simp
    rw [allocate_range_norec cfg s job gpu req hr2]
    exact hfresh s rfl rfl

/-- Witness for `alloc_cap_failure_advances_offset`: with
max_ranges_per_job = 0 every fresh allocation fails at the cap and still
advances the offset. -/
theorem alloc_cap_failure_advances_offset_witness :
    ((⟨0, 1000, 100, false, 0⟩ : NonceManagerConfig).enable_recycling = true →
      (getRecycledRange NMState.init "j1" 0 5).1 = none) ∧
    (nmOffset ⟨0, 1000, 100, false, 0⟩ NMState.init "j1" + 5 ≤ 1000) ∧
    ((⟨0, 1000, 100, false, 0⟩ : NonceManagerConfig).max_ranges_per_job
      ≤ (NMState.init.activeOf "j1").length) ∧
    ((allocate_range ⟨0, 1000, 100, false, 0⟩ NMState.init "j1" 0 (some 5)).1 = none ∧
     nmOffset ⟨0, 1000, 100, false, 0⟩
       (allocate_range ⟨0, 1000, 100, false, 0⟩ NMState.init "j1" 0 (some 5)).2 "j1"
       = nmOffset ⟨0, 1000, 100, false, 0⟩ NMState.init "j1" + 5) :=
  ⟨by decide, by decide, by decide,
   alloc_cap_failure_advances_offset ⟨0, 1000, 100, false, 0⟩ NMState.init "j1" 0 (some 5)
     (by decide) (by decide) (by decide)⟩

/-- C8: when allocate_range serves a request from the recycled queue, the
returned range is not re-inserted into the active-range set: the
active-range map is unchanged, so any nonce of the returned range that no
active range covers is reported unallocated by is_nonce_allocated. -/
theorem recycled_alloc_not_in_active (cfg : NonceManagerConfig) (s : NMState)
    (job : String) (gpu : Nat) (req : Option Nat) (r : NonceRange)
    (hrec : cfg.enable_recycling = true)
    (hr : (getRecycledRange s job gpu (req.getD cfg.default_range_size)).1 = some r) :
    (allocate_range cfg s job gpu req).1 = some r ∧
    ((allocate_range cfg s job gpu req).2).active_ranges = s.active_ranges ∧
    ∀ n, r.contains n = true →
      (∀ q ∈ s.activeOf job, q.contains n = false) →
      is_nonce_allocated (allocate_range cfg s job gpu req).2 job n = false := by
  have heq : allocate_range cfg s job gpu req
      = (some r, (getRecycledRange s job gpu (req.getD cfg.default_range_size)).2) := by
    unfold allocate_range
    simp only [hrec, if_true, hr]
  rw [heq]
  refine ⟨rfl, getRecycledRange_active s job gpu _, ?_⟩
  intro n _ hq
  unfold is_nonce_allocated
  rw [getRecycledRange_active s job gpu _]
  rcases hl : lookupA s.active_ranges job with _ | rs
  · rfl
  · have hrs : s.activeOf job = rs := by
      unfold NMState.activeOf
      rw [hl]
      rfl
    rw [List.any_eq_false]
    intro q hqm
    have := hq q (by rw [hrs]; exact hqm)
    simp [this]

/-- Witness for `recycled_alloc_not_in_active`: a manager whose job has one
completed (recycled) range and an empty active set. -/
theorem recycled_alloc_not_in_active_witness :
    ((⟨0, 1000000, 100, true, 10⟩ : NonceManagerConfig).enable_recycling = true) ∧
    ((getRecycledRange
        ⟨[("j1", 10)], [("j1", [])], [("j1", [⟨0, 10, 0, "j1"⟩])], NonceStats.init⟩
        "j1" 5 10).1 = some ⟨0, 10, 5, "j1"⟩) ∧
    ((allocate_range ⟨0, 1000000, 100, true, 10⟩
        ⟨[("j1", 10)], [("j1", [])], [("j1", [⟨0, 10, 0, "j1"⟩])], NonceStats.init⟩
        "j1" 5 (some 10)).1 = some ⟨0, 10, 5, "j1"⟩ ∧
     ((allocate_range ⟨0, 1000000, 100, true, 10⟩
        ⟨[("j1", 10)], [("j1", [])], [("j1", [⟨0, 10, 0, "j1"⟩])], NonceStats.init⟩
        "j1" 5 (some 10)).2).active_ranges = [("j1", [])] ∧
     ∀ n, NonceRange.contains ⟨0, 10, 5, "j1"⟩ n = true →
       (∀ q ∈ NMState.activeOf
          ⟨[("j1", 10)], [("j1", [])], [("j1", [⟨0, 10, 0, "j1"⟩])], NonceStats.init⟩ "j1",
          q.contains n = false) →
       is_nonce_allocated (allocate_range ⟨0, 1000000, 100, true, 10⟩
          ⟨[("j1", 10)], [("j1", [])], [("j1", [⟨0, 10, 0, "j1"⟩])], NonceStats.init⟩
          "j1" 5 (some 10)).2 "j1" n = false) :=
  ⟨by decide, by decide,
   recycled_alloc_not_in_active ⟨0, 1000000, 100, true, 10⟩
     ⟨[("j1", 10)], [("j1", [])], [("j1", [⟨0, 10, 0, "j1"⟩])], NonceStats.init⟩
     "j1" 5 (some 10) ⟨0, 10, 5, "j1"⟩ (by decide) (by decide)⟩

/-! ## Job queue (mineos-core/src/job_queue.rs) -/

/-- `MiningJob` from mineos-stratum/src/protocol.rs: the pool job fields
used by the queue. -/
structure MiningJob where
  job_id : String
  prev_hash : String
  coinbase1 : String
  coinbase2 : String
  merkle_branches : List String
  version : String
  nbits : String
  ntime : String
  clean_jobs : Bool
deriving DecidableEq

/-- `BlockHeader` (mineos-hash): numeric fields as Nat. -/
structure BlockHeader where
  prev_hash : Hash256
  merkle_root : Hash256
  timestamp : Nat
  bits : Nat
  nonce : Nat
  height : Nat
deriving DecidableEq

/-- `JobPriority`. -/
inductive JobPriority where
  | Critical
  | High
  | Normal
  | Low
deriving DecidableEq

/-- `QueuedJob`: a job with metadata; `received_at` is a Nat timestamp in
seconds. -/
structure QueuedJob where
  job : MiningJob
  header : BlockHeader
  target : Hash256
  priority : JobPriority
  received_at : Nat
  clean : Bool
deriving DecidableEq

/-- `JobQueueConfig`. -/
structure JobQueueConfig where
  max_queue_size : Nat
  enable_priority : Bool
  max_job_age_secs : Nat
  backup_job_count : Nat

/-- `QueueStats`. -/
structure QueueStats where
  total_jobs_received : Nat
  total_jobs_processed : Nat
  clean_jobs_received : Nat
  jobs_dropped_age : Nat
  jobs_dropped_overflow : Nat
  current_queue_depth : Nat
deriving DecidableEq

/-- All-zero `QueueStats::default()`. -/
def QueueStats.init : QueueStats := ⟨0, 0, 0, 0, 0, 0⟩

/-- State of a `JobQueue`: the Critical (high) channel is bounded at 10
slots, the Normal channel at `max_queue_size`; lists are ordered oldest
first. -/
structure QState where
  high : List QueuedJob
  normal : List QueuedJob
  current : Option QueuedJob
  backups : List QueuedJob
  stats : QueueStats
deriving DecidableEq

/-- Fresh `JobQueue::new` state. -/
def QState.init : QState := ⟨[], [], none, [], QueueStats.init⟩

/-- The `QueuedJob` value `add_job` constructs. -/
def mkQueued (job : MiningJob) (header : BlockHeader) (target : Hash256)
    (now : Nat) : QueuedJob :=
  ⟨job, header, target, if job.clean_jobs then .Critical else .Normal, now, job.clean_jobs⟩

/-- Stats update at the top of `add_job`. -/
def statsRecv (st : QueueStats) (clean : Bool) : QueueStats :=
  { st with
    total_jobs_received := st.total_jobs_received + 1
    clean_jobs_received := st.clean_jobs_received + (if clean then 1 else 0) }

/-- Eviction loop of `add_backup_job`: pop the front while the deque holds
at least `backup_job_count` entries.  (The source loops forever when
`backup_job_count = 0` and the deque is empty; every configuration of
interest has a positive count.) -/
def dropOldBackups (count : Nat) : List QueuedJob → List QueuedJob
  | [] => []
  | b :: t => if count ≤ (b :: t).length then dropOldBackups count t else b :: t

/-- `JobQueue::add_backup_job`. -/
def add_backup_job (cfg : JobQueueConfig) (backups : List QueuedJob)
    (job : QueuedJob) : List QueuedJob :=
  dropOldBackups cfg.backup_job_count backups ++ [job]

/-- `JobQueue::add_job`: clean jobs drain the Normal channel and go to the
Critical channel; normal jobs go to the Normal channel and, on success,
also to the backup store.  Returns (success, new state); a failed
`try_send` counts an overflow drop. -/
def add_job (cfg : JobQueueConfig) (s : QState) (job : MiningJob)
    (header : BlockHeader) (target : Hash256) (now : Nat) : Bool × QState :=
  if job.clean_jobs then
    if s.high.length < 10 then
      (true,
       { s with
         high := s.high ++ [mkQueued job header target now]
         normal := []
         stats := { statsRecv s.stats true with
           current_queue_depth := s.high.length + 1 } })
    else
      (false,
       { s with
         normal := []
         stats := { statsRecv s.stats true with
           jobs_dropped_overflow := (statsRecv s.stats true).jobs_dropped_overflow + 1 } })
  else
    if s.normal.length < cfg.max_queue_size then
      (true,
       { s with
         normal := s.normal ++ [mkQueued job header target now]
         backups := add_backup_job cfg s.backups (mkQueued job header target now)
         stats := { statsRecv s.stats false with
           current_queue_depth := s.high.length + s.normal.length + 1 } })
    else
      (false,
       { s with
         stats := { statsRecv s.stats false with
           jobs_dropped_overflow := (statsRecv s.stats false).jobs_dropped_overflow + 1 } })

/-- `JobQueue::set_current_job`, applied to the state after the job was
removed from its channel. -/
def setCurrent (s : QState) (j : QueuedJob) : QState :=
  { s with
    current := some j
    stats := { s.stats with
      total_jobs_processed := s.stats.total_jobs_processed + 1
      current_queue_depth := s.high.length + s.normal.length } }

/-- Age-based draining of the Normal channel performed by the recursive
calls of `get_next_job`: pop jobs older than `max_job_age_secs`, counting
each drop, until a fresh job or the end of the channel is reached. -/
def drainNormal (cfg : JobQueueConfig) (now : Nat) :
    List QueuedJob → QueueStats → Option QueuedJob × List QueuedJob × QueueStats
  | [], st => (none, [], st)
  | j :: t, st =>
    if cfg.max_job_age_secs < now - j.received_at then
      drainNormal cfg now t { st with jobs_dropped_age := st.jobs_dropped_age + 1 }
    else
      (some j, t, st)

/-- `JobQueue::get_backup_job`: the newest backup whose age is at most
twice `max_job_age_secs`. -/
def get_backup_job (cfg : JobQueueConfig) (now : Nat)
    (backups : List QueuedJob) : Option QueuedJob :=
  backups.reverse.find? (fun j => decide (now - j.received_at ≤ cfg.max_job_age_secs * 2))

/-- `JobQueue::get_next_job`: poll Critical first, then the Normal channel
with age-based dropping, then fall back to the newest fresh backup. -/
def get_next_job (cfg : JobQueueConfig) (s : QState) (now : Nat) :
    Option QueuedJob × QState :=
  match s.high with
  | c :: hs => (some c, setCurrent { s with high := hs } c)
  | [] =>
    match drainNormal cfg now s.normal s.stats with
    | (some j, rest, st) => (some j, setCurrent { s with normal := rest, stats := st } j)
    | (none, rest, st) =>
      (get_backup_job cfg now s.backups, { s with normal := rest, stats := st })

/-- One operation on the job queue. -/
inductive QOp where
  | add (job : MiningJob) (header : BlockHeader) (target : Hash256) (now : Nat)
  | get (now : Nat)

/-- State transition of one queue operation. -/
def QStep (cfg : JobQueueConfig) (s : QState) : QOp → QState
  | .add j h t n => (add_job cfg s j h t n).2
  | .get n => (get_next_job cfg s n).2

/-- Observable output of one queue operation (the job a `get_next_job`
returns). -/
def QOut (cfg : JobQueueConfig) (s : QState) : QOp → Option QueuedJob
  | .add _ _ _ _ => none
  | .get n => (get_next_job cfg s n).1

/-- Outputs of a sequence of queue operations, in order. -/
def QOutputs (cfg : JobQueueConfig) : QState → List QOp → List (Option QueuedJob)
  | _, [] => []
  | s, op :: t => QOut cfg s op :: QOutputs cfg (QStep cfg s op) t

/-- The temporal property of clean-job preemption over an output trace:
until a job with the clean id is returned, no returned job has one of the
old (pre-clean Normal) ids. -/
def beforeCleanNoOld (cid : String) (old : List String) :
    List (Option QueuedJob) → Bool
  | [] => true
  | none :: r => beforeCleanNoOld cid old r
  | some x :: r =>
    if x.job.job_id = cid then true
    else (!(decide (x.job.job_id ∈ old))) && beforeCleanNoOld cid old r

/-- No add operation in the list carries one of the given job ids. -/
def opsAddIdsOk (old : List String) : List QOp → Bool
  | [] => true
  | QOp.add j _ _ _ :: t => (!(decide (j.job_id ∈ old))) && opsAddIdsOk old t
  | QOp.get _ :: t => opsAddIdsOk old t

theorem beforeCleanNoOld_aux (cfg : JobQueueConfig) (cid : String) (old : List String)
    (ops : List QOp) (hops : opsAddIdsOk old ops = true) :
    ∀ s : QState,
      cid ∈ s.high.map (fun q => q.job.job_id) →
      (∀ x ∈ s.high, x.job.job_id ∉ old) →
      (∀ x ∈ s.normal, x.job.job_id ∉ old) →
      beforeCleanNoOld cid old (QOutputs cfg s ops) = true := by
  induction ops with
  | nil =>
    intro s _ _ _
    simp [QOutputs, beforeCleanNoOld]
  | cons op t ih =>
    intro s hC hH hN
    cases op with
    | add j hd tg n =>
      have hsplit : j.job_id ∉ old ∧ opsAddIdsOk old t = true := by
        have h0 := hops
        rw [opsAddIdsOk] at h0
        simpa using h0
      have hops2 : opsAddIdsOk old t = true := hsplit.2
      have hj : j.job_id ∉ old := hsplit.1
      show beforeCleanNoOld cid old
        (none :: QOutputs cfg (QStep cfg s (QOp.add j hd tg n)) t) = true
      rw [beforeCleanNoOld]
      show beforeCleanNoOld cid old (QOutputs cfg (add_job cfg s j hd tg n).2 t) = true
      unfold add_job
      by_cases hclean : j.clean_jobs = true
      · rw [hclean]
        by_cases hcap : s.high.length < 10
        · rw [if_pos rfl, if_pos hcap]
          apply ih hops2
          · show cid ∈ (s.high ++ [mkQueued j hd tg n]).map (fun q => q.job.job_id)
            rw [List.map_append]
            exact List.mem_append_left _ hC
          · intro x hx
            rcases List.mem_append.mp hx with hx1 | hx2
            · exact hH x hx1
            · have : x = mkQueued j hd tg n := by simpa using hx2
              subst this
              exact hj
          · intro x hx
            simp at hx
        · rw [if_pos rfl, if_neg hcap]
          apply ih hops2
          · exact hC
          · exact hH
          · intro x hx
            simp at hx
      · have hclean2 : j.clean_jobs = false := by
          revert hclean
          cases j.clean_jobs <;> simp
        rw [hclean2]
        by_cases hcap : s.normal.length < cfg.max_queue_size
        · rw [if_neg (by simp), if_pos hcap]
          apply ih hops2
          · exact hC
          · exact hH
          · intro x hx
            rcases List.mem_append.mp hx with hx1 | hx2
            · exact hN x hx1
            · have : x = mkQueued j hd tg n := by simpa using hx2
              subst this
              exact hj
        · rw [if_neg (by simp), if_neg hcap]
          apply ih hops2
          · exact hC
          · exact hH
          · exact hN
    | get n =>
      have hops2 : opsAddIdsOk old t = true := by
        have := hops
        rw [opsAddIdsOk] at this
        exact this
      rcases hhigh : s.high with _ | ⟨c, hs⟩
      · rw [hhigh] at hC
        simp at hC
      · show beforeCleanNoOld cid old
          ((get_next_job cfg s n).1 :: QOutputs cfg (get_next_job cfg s n).2 t) = true
        have hget : get_next_job cfg s n = (some c, setCurrent { s with high := hs } c) := by
          unfold get_next_job
          rw [hhigh]
        rw [hget]
        by_cases hc : c.job.job_id = cid
        · rw [beforeCleanNoOld, if_pos hc]
        · rw [beforeCleanNoOld, if_neg hc]
          rw [Bool.and_eq_true]
          constructor
          · have : c ∈ s.high := by
              rw [hhigh]
              exact List.mem_cons_self c hs
            simpa using hH c this
          · apply ih hops2
            · show cid ∈ hs.map (fun q => q.job.job_id)
              rw [hhigh] at hC
              rcases List.mem_cons.mp hC with h1 | h2
              · exact absurd h1.symm hc
              · exact h2
            · intro x hx
              apply hH
              rw [hhigh]
              exact List.mem_cons_of_mem c hx
            · exact hN

/-- All-zero test hash (as in the repo test fixtures). -/
def testHash : Hash256 := ⟨List.replicate 32 0⟩

/-- Default `BlockHeader` used by the repo tests. -/
def testHeader : BlockHeader := ⟨testHash, testHash, 0, 0, 0, 0⟩

/-- `create_test_job` from the job_queue tests. -/
def testJob (id : String) (clean : Bool) : MiningJob :=
  ⟨id, "00000000", "01000000", "00000000", [], "00000001", "1d00ffff", "00000000", clean⟩

/-- `JobQueueConfig::default()`. -/
def cfgDefault : JobQueueConfig := ⟨100, true, 120, 3⟩

/-- C3 counterexample: add one Normal job, then a clean job.  The clean
add drains the Normal channel (one job discarded), yet both dropped-job
statistics fields remain zero: the drain is only logged, never counted in
QueueStats. -/
theorem clean_drain_not_counted_cex :
    ((add_job cfgDefault QState.init (testJob "normal1" false) testHeader testHash 0).2).normal.length = 1 ∧
    ((add_job cfgDefault
        (add_job cfgDefault QState.init (testJob "normal1" false) testHeader testHash 0).2
        (testJob "clean1" true) testHeader testHash 0).2).normal = [] ∧
    ((add_job cfgDefault
        (add_job cfgDefault QState.init (testJob "normal1" false) testHeader testHash 0).2
        (testJob "clean1" true) testHeader testHash 0).2).stats.jobs_dropped_age = 0 ∧
    ((add_job cfgDefault
        (add_job cfgDefault QState.init (testJob "normal1" false) testHeader testHash 0).2
        (testJob "clean1" true) testHeader testHash 0).2).stats.jobs_dropped_overflow = 0 := by
  refine ⟨?_, ?_, ?_, ?_⟩ <;> decide

/-- C3 (amended): once add_job of a clean job has been acknowledged, no
subsequent get_next_job returns a Normal job queued earlier before the
clean job is returned; the Normal jobs discarded by the drain are however
only logged: the dropped-job statistics of the queue are unchanged by the
drain. -/
theorem clean_preemption_drain_uncounted (cfg : JobQueueConfig) (q0 : QState)
    (C : MiningJob) (hdr : BlockHeader) (tgt : Hash256) (now : Nat) (ops : List QOp)
    (hclean : C.clean_jobs = true)
    (hcap : q0.high.length < 10)
    (hCold : C.job_id ∉ q0.normal.map (fun x => x.job.job_id))
    (hhigh : ∀ x ∈ q0.high, x.job.job_id ∉ q0.normal.map (fun y => y.job.job_id))
    (hops : opsAddIdsOk (q0.normal.map (fun x => x.job.job_id)) ops = true) :
    (add_job cfg q0 C hdr tgt now).1 = true ∧
    beforeCleanNoOld C.job_id (q0.normal.map (fun x => x.job.job_id))
      (QOutputs cfg (add_job cfg q0 C hdr tgt now).2 ops) = true ∧
    ((add_job cfg q0 C hdr tgt now).2).stats.jobs_dropped_age
      = q0.stats.jobs_dropped_age ∧
    ((add_job cfg q0 C hdr tgt now).2).stats.jobs_dropped_overflow
      = q0.stats.jobs_dropped_overflow ∧
    ((add_job cfg q0 C hdr tgt now).2).normal = [] := by
  have hstep : add_job cfg q0 C hdr tgt now
      = (true,
         { q0 with
           high := q0.high ++ [mkQueued C hdr tgt now]
           normal := []
           stats := { statsRecv q0.stats true with
             current_queue_depth := q0.high.length + 1 } }) := by
    unfold add_job
    rw [hclean, if_pos rfl, if_pos hcap]
  rw [hstep]
  refine ⟨rfl, ?_, rfl, rfl, rfl⟩
  apply beforeCleanNoOld_aux cfg C.job_id _ ops hops
  · show C.job_id ∈ (q0.high ++ [mkQueued C hdr tgt now]).map (fun q => q.job.job_id)
    rw [List.map_append]
    apply List.mem_append_right
    simp [mkQueued]
  · intro x hx
    rcases List.mem_append.mp hx with hx1 | hx2
    · exact hhigh x hx1
    · have : x = mkQueued C hdr tgt now := by simpa using hx2
      subst this
      exact hCold
  · intro x hx
    simp at hx

/-- Witness for `clean_preemption_drain_uncounted`: a queue holding one
Normal job receives a clean job, then two get_next_job calls follow. -/
theorem clean_preemption_drain_uncounted_witness :
    ((testJob "clean1" true).clean_jobs = true) ∧
    (((add_job cfgDefault QState.init (testJob "normal1" false) testHeader testHash 0).2).high.length < 10) ∧
    ((testJob "clean1" true).job_id ∉
      (((add_job cfgDefault QState.init (testJob "normal1" false) testHeader testHash 0).2).normal.map
        (fun x => x.job.job_id))) ∧
    (∀ x ∈ ((add_job cfgDefault QState.init (testJob "normal1" false) testHeader testHash 0).2).high,
      x.job.job_id ∉
        (((add_job cfgDefault QState.init (testJob "normal1" false) testHeader testHash 0).2).normal.map
          (fun y => y.job.job_id))) ∧
    (opsAddIdsOk
      (((add_job cfgDefault QState.init (testJob "normal1" false) testHeader testHash 0).2).normal.map
        (fun x => x.job.job_id))
      [QOp.get 0, QOp.get 0] = true) ∧
    ((add_job cfgDefault
        (add_job cfgDefault QState.init (testJob "normal1" false) testHeader testHash 0).2
        (testJob "clean1" true) testHeader testHash 0).1 = true ∧
     beforeCleanNoOld (testJob "clean1" true).job_id
       (((add_job cfgDefault QState.init (testJob "normal1" false) testHeader testHash 0).2).normal.map
         (fun x => x.job.job_id))
       (QOutputs cfgDefault
         (add_job cfgDefault
           (add_job cfgDefault QState.init (testJob "normal1" false) testHeader testHash 0).2
           (testJob "clean1" true) testHeader testHash 0).2
         [QOp.get 0, QOp.get 0]) = true ∧
     ((add_job cfgDefault
         (add_job cfgDefault QState.init (testJob "normal1" false) testHeader testHash 0).2
         (testJob "clean1" true) testHeader testHash 0).2).stats.jobs_dropped_age
       = ((add_job cfgDefault QState.init (testJob "normal1" false) testHeader testHash 0).2).stats.jobs_dropped_age ∧
     ((add_job cfgDefault
         (add_job cfgDefault QState.init (testJob "normal1" false) testHeader testHash 0).2
         (testJob "clean1" true) testHeader testHash 0).2).stats.jobs_dropped_overflow
       = ((add_job cfgDefault QState.init (testJob "normal1" false) testHeader testHash 0).2).stats.jobs_dropped_overflow ∧
     ((add_job cfgDefault
         (add_job cfgDefault QState.init (testJob "normal1" false) testHeader testHash 0).2
         (testJob "clean1" true) testHeader testHash 0).2).normal = []) :=
  ⟨by decide, by decide, by decide, by decide, by decide,
   clean_preemption_drain_uncounted cfgDefault
     (add_job cfgDefault QState.init (testJob "normal1" false) testHeader testHash 0).2
     (testJob "clean1" true) testHeader testHash 0 [QOp.get 0, QOp.get 0]
     (by decide) (by decide) (by decide) (by decide) (by decide)⟩

/-- C2 counterexample: one Normal job N1 is queued, a clean job C drains
the Normal channel and is retrieved, and no new Normal job arrives; yet
the next get_next_job returns the backup copy of N1 instead of None. -/
theorem post_clean_get_not_none_cex :
    ((get_next_job cfgDefault
        (add_job cfgDefault
          (add_job cfgDefault QState.init (testJob "normal1" false) testHeader testHash 0).2
          (testJob "clean1" true) testHeader testHash 0).2 0).1).map (fun q => q.job.job_id)
      = some "clean1" ∧
    ((get_next_job cfgDefault
        (get_next_job cfgDefault
          (add_job cfgDefault
            (add_job cfgDefault QState.init (testJob "normal1" false) testHeader testHash 0).2
            (testJob "clean1" true) testHeader testHash 0).2 0).2 0).1).map (fun q => q.job.job_id)
      = some "normal1" := by
  refine ⟨?_, ?_⟩ <;> decide

/-- C2 (amended): after a clean job C is added (draining the Normal
channel of an earlier Normal job N, whose backup copy remains) and C has
been retrieved by get_next_job, a further get_next_job with no intervening
Normal add returns the newest sufficiently fresh backup job (here N), not
None; None is returned only when no fresh backup exists. -/
theorem post_clean_get_returns_backup (cfg : JobQueueConfig) (N C : MiningJob)
    (hdr : BlockHeader) (tgt : Hash256) (now : Nat)
    (hN : N.clean_jobs = false) (hC : C.clean_jobs = true)
    (hmq : 0 < cfg.max_queue_size) :
    ((get_next_job cfg
        (add_job cfg (add_job cfg QState.init N hdr tgt now).2 C hdr tgt now).2 now).1).map
      (fun q => q.job.job_id) = some C.job_id ∧
    ((get_next_job cfg
        (get_next_job cfg
          (add_job cfg (add_job cfg QState.init N hdr tgt now).2 C hdr tgt now).2 now).2 now).1).map
      (fun q => q.job.job_id) = some N.job_id := by
  have h1 : add_job cfg QState.init N hdr tgt now
      = (true,
         { QState.init with
           normal := [mkQueued N hdr tgt now]
           backups := [mkQueued N hdr tgt now]
           stats := { statsRecv QueueStats.init false with current_queue_depth := 1 } }) := by
    unfold add_job
    rw [hN]
    rw [if_neg (by simp)]
    rw [if_pos (by simpa [QState.init] using hmq)]
    have hb : add_backup_job cfg [] (mkQueued N hdr tgt now)
        = [mkQueued N hdr tgt now] := by
      unfold add_backup_job dropOldBackups
      rfl
    simp [QState.init, hb, statsRecv]
  rw [h1]
  have h2 : add_job cfg
      { QState.init with
        normal := [mkQueued N hdr tgt now]
        backups := [mkQueued N hdr tgt now]
        stats := { statsRecv QueueStats.init false with current_queue_depth := 1 } }
      C hdr tgt now
      = (true,
         { QState.init with
           high := [mkQueued C hdr tgt now]
           normal := []
           backups := [mkQueued N hdr tgt now]
           stats := { statsRecv { statsRecv QueueStats.init false with
             current_queue_depth := 1 } true with current_queue_depth := 1 } }) := by
    unfold add_job
    rw [hC, if_pos rfl]
    rw [if_pos (by simp [QState.init])]
    rfl
  rw [h2]
  have h3 : get_next_job cfg
      { QState.init with
        high := [mkQueued C hdr tgt now]
        normal := []
        backups := [mkQueued N hdr tgt now]
        stats := { statsRecv { statsRecv QueueStats.init false with
          current_queue_depth := 1 } true with current_queue_depth := 1 } } now
      = (some (mkQueued C hdr tgt now),
         setCurrent
           { QState.init with
             high := []
             normal := []
             backups := [mkQueued N hdr tgt now]
             stats := { statsRecv { statsRecv QueueStats.init false with
               current_queue_depth := 1 } true with current_queue_depth := 1 } }
           (mkQueued C hdr tgt now)) := by
    unfold get_next_job
    rfl
  rw [h3]
  constructor
  · simp [mkQueued]
  · have h4 : (get_next_job cfg
        (setCurrent
          { QState.init with
            high := []
            normal := []
            backups := [mkQueued N hdr tgt now]
            stats := { statsRecv { statsRecv QueueStats.init false with
              current_queue_depth := 1 } true with current_queue_depth := 1 } }
          (mkQueued C hdr tgt now)) now).1
        = get_backup_job cfg now [mkQueued N hdr tgt now] := rfl
    rw [h4]
    have h5 : get_backup_job cfg now [mkQueued N hdr tgt now]
        = some (mkQueued N hdr tgt now) := by
      unfold get_backup_job
      simp [mkQueued, List.find?]
    rw [h5]
    simp [mkQueued]

/-- Witness for `post_clean_get_returns_backup` at the default config. -/
theorem post_clean_get_returns_backup_witness :
    ((testJob "normal1" false).clean_jobs = false) ∧
    ((testJob "clean1" true).clean_jobs = true) ∧
    (0 < cfgDefault.max_queue_size) ∧
    (((get_next_job cfgDefault
        (add_job cfgDefault
          (add_job cfgDefault QState.init (testJob "normal1" false) testHeader testHash 3).2
          (testJob "clean1" true) testHeader testHash 3).2 3).1).map (fun q => q.job.job_id)
        = some (testJob "clean1" true).job_id ∧
     ((get_next_job cfgDefault
        (get_next_job cfgDefault
          (add_job cfgDefault
            (add_job cfgDefault QState.init (testJob "normal1" false) testHeader testHash 3).2
            (testJob "clean1" true) testHeader testHash 3).2 3).2 3).1).map (fun q => q.job.job_id)
        = some (testJob "normal1" false).job_id) :=
  ⟨by decide, by decide, by decide,
   post_clean_get_returns_backup cfgDefault (testJob "normal1" false) (testJob "clean1" true)
     testHeader testHash 3 (by decide) (by decide) (by decide)⟩

/-! ## Work distributor (mineos-core/src/work_distributor.rs)

The `created_at` and `estimated_duration` fields of `WorkUnit` (Instant /
Duration values) play no role in any claim and are omitted.
`calculate_work_size` computes with f64 hashrate statistics; its result is
abstracted as a function `calcSize` of the GPU index, quantified in the
theorems (when `dynamic_sizing` is false, or while every average hashrate
is zero, the source returns `base_work_size` for every GPU). -/

/-- `WorkUnit` (timing fields omitted, see section comment). -/
structure WorkUnit where
  id : Nat
  job_id : String
  header : BlockHeader
  target : Hash256
  nonce_start : Nat
  nonce_count : Nat
  gpu_index : Nat
  clean : Bool
deriving DecidableEq

/-- `WorkDistributorConfig` (the Duration and f32 fields `work_timeout`
and `work_stealing_threshold` are not used by the modelled operations). -/
structure WorkDistributorConfig where
  base_work_size : Nat
  min_work_size : Nat
  max_work_size : Nat
  queue_depth : Nat
  dynamic_sizing : Bool

/-- State of a `WorkDistributor`: the per-GPU work queues are indexed by
GPU (list position), the active map is keyed by work id. -/
structure DistState where
  currentJob : Option MiningJob
  nextWorkId : Nat
  activeWork : List (Nat × WorkUnit)
  workQueues : List (List WorkUnit)
  globalNonceOffset : Nat
deriving DecidableEq

/-- `WorkDistributor::new` with `num_gpus` GPUs. -/
def distInit (num_gpus : Nat) : DistState :=
  ⟨none, 0, [], List.replicate num_gpus [], 0⟩

/-- Queue of a GPU (empty when the GPU index has no entry). -/
def getQ (qs : List (List WorkUnit)) (g : Nat) : List WorkUnit :=
  qs.getD g []

/-- Replace the queue of a GPU; no change when the index has no entry. -/
def setQ : List (List WorkUnit) → Nat → List WorkUnit → List (List WorkUnit)
  | [], _, _ => []
  | _ :: t, 0, v => v :: t
  | q :: t, Nat.succ g, v => q :: setQ t g v

theorem length_setQ (qs : List (List WorkUnit)) (g : Nat) (v : List WorkUnit) :
    (setQ qs g v).length = qs.length := by
  induction qs generalizing g with
  | nil => rfl
  | cons q t ih =>
    cases g with
    | zero => rfl
    | succ g => simp [setQ, ih]

theorem getQ_setQ_self (qs : List (List WorkUnit)) (g : Nat) (v : List WorkUnit)
    (h : g < qs.length) : getQ (setQ qs g v) g = v := by
  induction qs generalizing g with
  | nil => simp at h
  | cons q t ih =>
    cases g with
    | zero => rfl
    | succ g =>
      have h2 : g < t.length := by simpa using h
      show getQ (setQ t g v) g = v
      exact ih g h2

theorem getQ_setQ_ne (qs : List (List WorkUnit)) (g k : Nat) (v : List WorkUnit)
    (h : k ≠ g) : getQ (setQ qs g v) k = getQ qs k := by
  induction qs generalizing g k with
  | nil => rfl
  | cons q t ih =>
    cases g with
    | zero =>
      cases k with
      | zero => exact absurd rfl h
      | succ k => rfl
    | succ g =>
      cases k with
      | zero => rfl
      | succ k =>
        have h2 : k ≠ g := fun e => h (by rw [e])
        show getQ (setQ t g v) k = getQ t k
        exact ih g k h2

/-- `WorkDistributor::generate_work_for_gpu`: abort when no job is active;
otherwise advance the shared nonce offset and the work-unit id counter,
and append the new unit to the queue of the GPU when it holds fewer than
`queue_depth * 2` units. -/
def generate_work_for_gpu (calcSize : Nat → Nat) (cfg : WorkDistributorConfig)
    (s : DistState) (gpu : Nat) (header : BlockHeader) (target : Hash256) : DistState :=
  match s.currentJob with
  | none => s
  | some job =>
    { s with
      globalNonceOffset := s.globalNonceOffset + calcSize gpu
      nextWorkId := s.nextWorkId + 1
      workQueues :=
        if (getQ s.workQueues gpu).length < cfg.queue_depth * 2 then
          setQ s.workQueues gpu (getQ s.workQueues gpu ++
            [⟨s.nextWorkId, job.job_id, header, target,
              s.globalNonceOffset, calcSize gpu, gpu, false⟩])
        else s.workQueues }

/-- `WorkDistributor::clear_all_work`. -/
def clear_all_work (s : DistState) : DistState :=
  { s with activeWork := [], workQueues := s.workQueues.map (fun _ => []) }

/-- Generation loop of `update_job` over a list of GPU indices. -/
def genFold (calcSize : Nat → Nat) (cfg : WorkDistributorConfig)
    (header : BlockHeader) (target : Hash256) (s : DistState) (gs : List Nat) : DistState :=
  gs.foldl (fun acc g => generate_work_for_gpu calcSize cfg acc g header target) s

/-- `WorkDistributor::update_job`: clear everything on a clean job, set the
current job, reset the shared nonce offset, then generate work once per
GPU. -/
def update_job (calcSize : Nat → Nat) (cfg : WorkDistributorConfig)
    (s : DistState) (job : MiningJob) (header : BlockHeader) (target : Hash256) : DistState :=
  genFold calcSize cfg header target
    { (if job.clean_jobs then clear_all_work s else s) with
      currentJob := some job
      globalNonceOffset := 0 }
    (List.range ((if job.clean_jobs then clear_all_work s else s).workQueues.length))

theorem getQ_clear (qs : List (List WorkUnit)) (g : Nat) :
    getQ (qs.map (fun _ => [])) g = [] := by
  induction qs generalizing g with
  | nil => rfl
  | cons q t ih =>
    cases g with
    | zero => rfl
    | succ g => exact ih g

theorem genFold_ones (calcSize : Nat → Nat) (cfg : WorkDistributorConfig)
    (header : BlockHeader) (target : Hash256) (job : MiningJob)
    (hqd : 1 ≤ cfg.queue_depth) :
    ∀ (gs : List Nat) (s : DistState),
      s.currentJob = some job →
      gs.Nodup →
      (∀ g ∈ gs, getQ s.workQueues g = []) →
      (genFold calcSize cfg header target s gs).currentJob = some job ∧
      (genFold calcSize cfg header target s gs).activeWork = s.activeWork ∧
      (genFold calcSize cfg header target s gs).workQueues.length = s.workQueues.length ∧
      (∀ g ∈ gs, g < s.workQueues.length →
        ∃ u : WorkUnit, getQ (genFold calcSize cfg header target s gs).workQueues g = [u]
          ∧ u.job_id = job.job_id) ∧
      (∀ g, g ∉ gs →
        getQ (genFold calcSize cfg header target s gs).workQueues g = getQ s.workQueues g) := by
  intro gs
  induction gs with
  | nil =>
    intro s hcur _ _
    exact ⟨hcur, rfl, rfl, by intro g hg; simp at hg, by intro g _; rfl⟩
  | cons g0 gs ih =>
    intro s hcur hnd hempty
    have hg0empty : getQ s.workQueues g0 = [] := hempty g0 (List.mem_cons_self g0 gs)
    have hcond : (getQ s.workQueues g0).length < cfg.queue_depth * 2 := by
      rw [hg0empty]
      simp
      omega
    have hstep : generate_work_for_gpu calcSize cfg s g0 header target
        = { s with
            globalNonceOffset := s.globalNonceOffset + calcSize g0
            nextWorkId := s.nextWorkId + 1
            workQueues := setQ s.workQueues g0 (getQ s.workQueues g0 ++
              [⟨s.nextWorkId, job.job_id, header, target,
                s.globalNonceOffset, calcSize g0, g0, false⟩]) } := by
      unfold generate_work_for_gpu
      simp only [hcur]
      rw [if_pos hcond]
    have hfold : genFold calcSize cfg header target s (g0 :: gs)
        = genFold calcSize cfg header target
            (generate_work_for_gpu calcSize cfg s g0 header target) gs := rfl
    have hnd2 : gs.Nodup := (List.nodup_cons.mp hnd).2
    have hg0nin : g0 ∉ gs := (List.nodup_cons.mp hnd).1
    have hempty2 : ∀ g ∈ gs,
        getQ (generate_work_for_gpu calcSize cfg s g0 header target).workQueues g = [] := by
      intro g hg
      rw [hstep]
      show getQ (setQ s.workQueues g0 _) g = []
      have hne : g ≠ g0 := by
        intro e
        rw [e] at hg
        exact hg0nin hg
      rw [getQ_setQ_ne _ _ _ _ hne]
      exact hempty g (List.mem_cons_of_mem g0 hg)
    have hcur2 : (generate_work_for_gpu calcSize cfg s g0 header target).currentJob
        = some job := by
      rw [hstep]
      exact hcur
    obtain ⟨ih1, ih2, ih3, ih4, ih5⟩ := ih _ hcur2 hnd2 hempty2
    rw [hfold]
    have hlen2 : (generate_work_for_gpu calcSize cfg s g0 header target).workQueues.length
        = s.workQueues.length := by
      rw [hstep]
      show (setQ s.workQueues g0 _).length = s.workQueues.length
      exact length_setQ _ _ _
    refine ⟨ih1, ?_, ?_, ?_, ?_⟩
    · rw [ih2, hstep]
    · rw [ih3, hlen2]
    · intro g hg hglt
      rcases List.mem_cons.mp hg with hg1 | hg2
      · subst hg1
        refine ⟨⟨s.nextWorkId, job.job_id, header, target,
          s.globalNonceOffset, calcSize g, g, false⟩, ?_, rfl⟩
        rw [ih5 g hg0nin, hstep]
        show getQ (setQ s.workQueues g _) g = _
        rw [getQ_setQ_self _ _ _ hglt, hg0empty]
        rfl
      · have := ih4 g hg2 (by rw [hlen2]; exact hglt)
        exact this
    · intro g hgnin
      have hne : g ≠ g0 := fun e => hgnin (e ▸ List.mem_cons_self g0 gs)
      have hnin2 : g ∉ gs := fun hm => hgnin (List.mem_cons_of_mem g0 hm)
      rw [ih5 g hnin2, hstep]
      show getQ (setQ s.workQueues g0 _) g = getQ s.workQueues g
      exact getQ_setQ_ne _ _ _ _ hne

/-- C4 counterexample: with the default configuration (queue_depth = 3)
and one GPU, `update_job` with a clean job leaves exactly one work unit in
the queue of the GPU, not queue_depth units. -/
theorem update_job_clean_one_unit_cex :
    (getQ (update_job (fun _ => 100000000) ⟨100000000, 10000000, 1000000000, 3, true⟩
        (distInit 1) (testJob "clean1" true) testHeader testHash).workQueues 0).length = 1 ∧
    (⟨100000000, 10000000, 1000000000, 3, true⟩ : WorkDistributorConfig).queue_depth = 3 := by
  refine ⟨?_, rfl⟩
  decide

/-- C4 (amended): for every call update_job(job, header, target) with
job.clean_jobs = true (and queue_depth at least 1), all per-GPU work
queues and the active-unit map are cleared and the shared nonce offset is
reset before generation; after the call each GPU queue contains exactly
ONE freshly generated work unit carrying the new job id (not queue_depth
units). -/
theorem update_job_clean_clears_and_fills_one (calcSize : Nat → Nat)
    (cfg : WorkDistributorConfig) (s : DistState) (job : MiningJob)
    (header : BlockHeader) (target : Hash256)
    (hclean : job.clean_jobs = true) (hqd : 1 ≤ cfg.queue_depth) :
    (update_job calcSize cfg s job header target).activeWork = [] ∧
    (update_job calcSize cfg s job header target).workQueues.length
      = s.workQueues.length ∧
    ∀ g, g < s.workQueues.length →
      ∃ u : WorkUnit,
        getQ (update_job calcSize cfg s job header target).workQueues g = [u]
          ∧ u.job_id = job.job_id := by
  have hcl : (if job.clean_jobs then clear_all_work s else s) = clear_all_work s := by
    rw [hclean]
    rfl
  have hupd : update_job calcSize cfg s job header target
      = genFold calcSize cfg header target
          { clear_all_work s with currentJob := some job, globalNonceOffset := 0 }
          (List.range ((clear_all_work s).workQueues.length)) := by
    unfold update_job
    rw [hcl]
  have hlen0 : (clear_all_work s).workQueues.length = s.workQueues.length := by
    show (s.workQueues.map (fun _ => [])).length = s.workQueues.length
    simp
  have hones := genFold_ones calcSize cfg header target job hqd
    (List.range ((clear_all_work s).workQueues.length))
    { clear_all_work s with currentJob := some job, globalNonceOffset := 0 }
    rfl (List.nodup_range _)
    (by
      intro g _
      show getQ (s.workQueues.map (fun _ => [])) g = []
      exact getQ_clear s.workQueues g)
  obtain ⟨h1, h2, h3, h4, h5⟩ := hones
  rw [hupd]
  refine ⟨?_, ?_, ?_⟩
  · rw [h2]
    rfl
  · rw [h3]
    show (s.workQueues.map (fun _ => [])).length = s.workQueues.length
    simp
  · intro g hg
    have hmem : g ∈ List.range ((clear_all_work s).workQueues.length) := by
      rw [List.mem_range, hlen0]
      exact hg
    have hglt : g < ({ clear_all_work s with
        currentJob := some job, globalNonceOffset := 0 } : DistState).workQueues.length := by
      show g < (s.workQueues.map (fun _ => [])).length
      simpa using hg
    exact h4 g hmem hglt

/-- Witness for `update_job_clean_clears_and_fills_one` with two GPUs. -/
theorem update_job_clean_clears_and_fills_one_witness :
    ((testJob "clean1" true).clean_jobs = true) ∧
    (1 ≤ (⟨100000000, 10000000, 1000000000, 3, true⟩ : WorkDistributorConfig).queue_depth) ∧
    ((update_job (fun _ => 1000) ⟨100000000, 10000000, 1000000000, 3, true⟩
        (distInit 2) (testJob "clean1" true) testHeader testHash).activeWork = [] ∧
     (update_job (fun _ => 1000) ⟨100000000, 10000000, 1000000000, 3, true⟩
        (distInit 2) (testJob "clean1" true) testHeader testHash).workQueues.length
       = (distInit 2).workQueues.length ∧
     ∀ g, g < (distInit 2).workQueues.length →
       ∃ u : WorkUnit,
         getQ (update_job (fun _ => 1000) ⟨100000000, 10000000, 1000000000, 3, true⟩
            (distInit 2) (testJob "clean1" true) testHeader testHash).workQueues g = [u]
           ∧ u.job_id = (testJob "clean1" true).job_id) :=
  ⟨by decide, by decide,
   update_job_clean_clears_and_fills_one (fun _ => 1000)
     ⟨100000000, 10000000, 1000000000, 3, true⟩ (distInit 2) (testJob "clean1" true)
     testHeader testHash (by decide) (by decide)⟩

/-! ## Share validator (mineos-core/src/share_validator.rs) -/

/-- `MiningResult` (mineos-hash). -/
structure MiningResult where
  nonce : Nat
  hash : Hash256
  mix_hash : Option Hash256
deriving DecidableEq

/-- `ValidationResult`. -/
inductive ValidationResult where
  | Valid
  | Stale
  | Duplicate
  | BelowTarget
  | InvalidHash
  | InvalidNonce
  | UnknownJob
deriving DecidableEq

/-- `ShareValidatorConfig`. -/
structure ShareValidatorConfig where
  detect_duplicates : Bool
  duplicate_cache_ttl : Nat
  duplicate_cache_size : Nat
  validate_nonce_range : Bool
  max_job_age : Nat
  fast_verify : Bool
deriving DecidableEq

/-- `ShareHistoryEntry`; the timestamp is a Nat in seconds. -/
structure ShareHistoryEntry where
  nonce : Nat
  hash : Hash256
  job_id : String
  timestamp : Nat
deriving DecidableEq

/-- `ValidationStats`. -/
structure ValidationStats where
  total_shares_validated : Nat
  valid_shares : Nat
  stale_shares : Nat
  duplicate_shares : Nat
  invalid_shares : Nat
  below_target_shares : Nat
  out_of_range_nonces : Nat
deriving DecidableEq

/-- All-zero `ValidationStats::default()`. -/
def ValidationStats.init : ValidationStats := ⟨0, 0, 0, 0, 0, 0, 0⟩

/-- State of a `ShareValidator`: the history deque (front = oldest), the
recent-hash set (as a duplicate-free list), the active-job set and the
optional nonce manager used for range checks. -/
structure SVState where
  config : ShareValidatorConfig
  share_history : List ShareHistoryEntry
  recent_hashes : List Hash256
  active_jobs : List String
  nonce_validator : Option NMState
  stats : ValidationStats

/-- `HashSet::insert` on the recent-hash set. -/
def insertHash (l : List Hash256) (h : Hash256) : List Hash256 :=
  if h ∈ l then l else l ++ [h]

/-- `HashSet::remove` on the recent-hash set. -/
def removeHash (l : List Hash256) (h : Hash256) : List Hash256 :=
  l.filter (fun x => x ≠ h)

/-- `ShareValidator::is_job_active`. -/
def is_job_active (s : SVState) (job_id : String) : Bool :=
  decide (job_id ∈ s.active_jobs)

/-- `ShareValidator::is_duplicate`: fast check of the hash set, then the
detailed (nonce, job_id) scan of the history. -/
def is_duplicate (s : SVState) (result : MiningResult) (job_id : String) : Bool :=
  decide (result.hash ∈ s.recent_hashes) ||
    s.share_history.any
      (fun e => decide (e.nonce = result.nonce) && decide (e.job_id = job_id))

/-- The nonce-range gate of `validate_result`: fails (true) when range
validation is enabled, a nonce manager is attached, and the nonce is not
allocated for the job. -/
def nonceGateFails (s : SVState) (job_id : String) (nonce : Nat) : Bool :=
  s.config.validate_nonce_range &&
    (match s.nonce_validator with
     | some nm => !(is_nonce_allocated nm job_id nonce)
     | none => false)

/-- `ShareValidator::verify_hash_fast` (the header argument is unused in
the source as well). -/
def verify_hash_fast (result : MiningResult) : Bool :=
  if result.nonce = 0 ∨ result.nonce = 2 ^ 64 - 1 then false
  else if result.hash.bytes.all (fun b => decide (b = 0))
      ∨ result.hash.bytes.all (fun b => decide (b = 255)) then false
  else true

/-- Cleanup loop of `add_to_history`: pop the front while it is older than
the cutoff or the history exceeds the cache size, removing each popped
hash from the recent-hash set. -/
def cleanupHistory (cutoff size : Nat) :
    List ShareHistoryEntry → List Hash256 → List ShareHistoryEntry × List Hash256
  | [], hs => ([], hs)
  | e :: t, hs =>
    if e.timestamp < cutoff ∨ size < (e :: t).length then
      cleanupHistory cutoff size t (removeHash hs e.hash)
    else
      (e :: t, hs)

/-- `ShareValidator::add_to_history`: append the new entry, insert its
hash, then run the cleanup loop. -/
def add_to_history (s : SVState) (result : MiningResult) (job_id : String)
    (now : Nat) : SVState :=
  { s with
    share_history :=
      (cleanupHistory (now - s.config.duplicate_cache_ttl) s.config.duplicate_cache_size
        (s.share_history ++ [⟨result.nonce, result.hash, job_id, now⟩])
        (insertHash s.recent_hashes result.hash)).1
    recent_hashes :=
      (cleanupHistory (now - s.config.duplicate_cache_ttl) s.config.duplicate_cache_size
        (s.share_history ++ [⟨result.nonce, result.hash, job_id, now⟩])
        (insertHash s.recent_hashes result.hash)).2 }

/-- Per-branch statistics update of `validate_result` (every branch also
counts the share in `total_shares_validated`). -/
def statsAfter (st : ValidationStats) : ValidationResult → ValidationStats
  | .UnknownJob =>
    { st with total_shares_validated := st.total_shares_validated + 1
              invalid_shares := st.invalid_shares + 1 }
  | .InvalidNonce =>
    { st with total_shares_validated := st.total_shares_validated + 1
              out_of_range_nonces := st.out_of_range_nonces + 1 }
  | .Duplicate =>
    { st with total_shares_validated := st.total_shares_validated + 1
              duplicate_shares := st.duplicate_shares + 1 }
  | .BelowTarget =>
    { st with total_shares_validated := st.total_shares_validated + 1
              below_target_shares := st.below_target_shares + 1 }
  | .InvalidHash =>
    { st with total_shares_validated := st.total_shares_validated + 1
              invalid_shares := st.invalid_shares + 1 }
  | .Valid =>
    { st with total_shares_validated := st.total_shares_validated + 1
              valid_shares := st.valid_shares + 1 }
  | .Stale =>
    { st with total_shares_validated := st.total_shares_validated + 1
              stale_shares := st.stale_shares + 1 }

/-- `ShareValidator::validate_result`: the gate chain of the source in
order (job liveness, nonce range, duplicates, target, fast verification),
recording the share in the history only when it is Valid. -/
def validate_result (s : SVState) (result : MiningResult) (_header : BlockHeader)
    (target : Hash256) (job_id : String) (now : Nat) : ValidationResult × SVState :=
  if is_job_active s job_id = false then
    (.UnknownJob, { s with stats := statsAfter s.stats .UnknownJob })
  else if nonceGateFails s job_id result.nonce then
    (.InvalidNonce, { s with stats := statsAfter s.stats .InvalidNonce })
  else if s.config.detect_duplicates && is_duplicate s result job_id then
    (.Duplicate, { s with stats := statsAfter s.stats .Duplicate })
  else if result.hash.meets_target target = false then
    (.BelowTarget, { s with stats := statsAfter s.stats .BelowTarget })
  else if s.config.fast_verify && !(verify_hash_fast result) then
    (.InvalidHash, { s with stats := statsAfter s.stats .InvalidHash })
  else
    (.Valid, add_to_history { s with stats := statsAfter s.stats .Valid } result job_id now)

theorem mem_of_getLast_eq (l : List ShareHistoryEntry) (e : ShareHistoryEntry)
    (h : l.getLast? = some e) : e ∈ l := by
  induction l with
  | nil => simp at h
  | cons x t ih =>
    cases t with
    | nil =>
      have : x = e := by simpa using h
      subst this
      exact List.mem_cons_self x []
    | cons y u =>
      rw [List.getLast?_cons_cons] at h
      exact List.mem_cons_of_mem x (ih h)

/-- The entry appended last survives the cleanup loop whenever the cache
size is positive and the entry is not older than the cutoff. -/
theorem cleanup_keeps_last (cutoff size : Nat) (e : ShareHistoryEntry)
    (hsize : 1 ≤ size) (hts : ¬ e.timestamp < cutoff) :
    ∀ (l : List ShareHistoryEntry) (hs : List Hash256),
      l.getLast? = some e → e ∈ (cleanupHistory cutoff size l hs).1 := by
  intro l
  induction l with
  | nil =>
    intro hs h
    simp at h
  | cons x t ih =>
    intro hs hlast
    rw [cleanupHistory]
    by_cases hc : x.timestamp < cutoff ∨ size < (x :: t).length
    · rw [if_pos hc]
      cases t with
      | nil =>
        have hx : x = e := by simpa using hlast
        subst hx
        rcases hc with hc1 | hc2
        · exact absurd hc1 hts
        · simp at hc2
          omega
      | cons y u =>
        rw [List.getLast?_cons_cons] at hlast
        exact ih _ hlast
    · rw [if_neg hc]
      exact mem_of_getLast_eq _ _ hlast

/-- The cleanup loop is the identity when the front entry is fresh and the
history does not exceed the cache size. -/
theorem cleanupHistory_noop (cutoff size : Nat) (l : List ShareHistoryEntry)
    (hs : List Hash256)
    (hfr : ∀ e ∈ l, ¬ e.timestamp < cutoff) (hlen : l.length ≤ size) :
    cleanupHistory cutoff size l hs = (l, hs) := by
  cases l with
  | nil => rfl
  | cons x t =>
    rw [cleanupHistory, if_neg]
    intro hc
    rcases hc with hc1 | hc2
    · exact hfr x (List.mem_cons_self x t) hc1
    · omega

theorem mem_insertHash (l : List Hash256) (h : Hash256) : h ∈ insertHash l h := by
  unfold insertHash
  by_cases hm : h ∈ l
  · rw [if_pos hm]
    exact hm
  · rw [if_neg hm]
    simp

/-- C6: whenever validate_result returns Valid for a result under a
configuration with duplicate detection enabled and a positive duplicate
cache size, an immediately following call with the same (nonce, hash,
job_id) against the resulting state returns Duplicate. -/
theorem valid_then_duplicate (s : SVState) (r : MiningResult) (header : BlockHeader)
    (target : Hash256) (job_id : String) (now : Nat)
    (hdet : s.config.detect_duplicates = true)
    (hcache : 1 ≤ s.config.duplicate_cache_size)
    (hvalid : (validate_result s r header target job_id now).1 = ValidationResult.Valid) :
    (validate_result (validate_result s r header target job_id now).2
      r header target job_id now).1 = ValidationResult.Duplicate := by
  unfold validate_result at hvalid
  by_cases h1 : is_job_active s job_id = false
  · rw [if_pos h1] at hvalid
    simp at hvalid
  rw [if_neg h1] at hvalid
  by_cases h2 : nonceGateFails s job_id r.nonce = true
  · rw [if_pos h2] at hvalid
    simp at hvalid
  rw [if_neg h2] at hvalid
  by_cases h3 : (s.config.detect_duplicates && is_duplicate s r job_id) = true
  · rw [if_pos h3] at hvalid
    simp at hvalid
  rw [if_neg h3] at hvalid
  by_cases h4 : r.hash.meets_target target = false
  · rw [if_pos h4] at hvalid
    simp at hvalid
  rw [if_neg h4] at hvalid
  by_cases h5 : (s.config.fast_verify && !(verify_hash_fast r)) = true
  · rw [if_pos h5] at hvalid
    simp at hvalid
  rw [if_neg h5] at hvalid
  have hsnd : (validate_result s r header target job_id now).2
      = add_to_history { s with stats := statsAfter s.stats .Valid } r job_id now := by
    unfold validate_result
    rw [if_neg h1, if_neg h2, if_neg h3, if_neg h4, if_neg h5]
  rw [hsnd]
  have hact : (add_to_history { s with stats := statsAfter s.stats .Valid } r job_id now).active_jobs
      = s.active_jobs := rfl
  have hcfg : (add_to_history { s with stats := statsAfter s.stats .Valid } r job_id now).config
      = s.config := rfl
  have hnv : (add_to_history { s with stats := statsAfter s.stats .Valid } r job_id now).nonce_validator
      = s.nonce_validator := rfl
  have hactive2 : is_job_active
      (add_to_history { s with stats := statsAfter s.stats .Valid } r job_id now) job_id
      = is_job_active s job_id := by
    unfold is_job_active
    rw [hact]
  have hgate2 : nonceGateFails
      (add_to_history { s with stats := statsAfter s.stats .Valid } r job_id now) job_id r.nonce
      = nonceGateFails s job_id r.nonce := by
    unfold nonceGateFails
    rw [hcfg, hnv]
  have hmem : (⟨r.nonce, r.hash, job_id, now⟩ : ShareHistoryEntry)
      ∈ (add_to_history { s with stats := statsAfter s.stats .Valid } r job_id now).share_history := by
    show (⟨r.nonce, r.hash, job_id, now⟩ : ShareHistoryEntry)
      ∈ (cleanupHistory (now - s.config.duplicate_cache_ttl) s.config.duplicate_cache_size
          (s.share_history ++ [⟨r.nonce, r.hash, job_id, now⟩])
          (insertHash s.recent_hashes r.hash)).1
    apply cleanup_keeps_last _ _ _ hcache
      (show ¬ now < now - s.config.duplicate_cache_ttl by omega)
    exact List.getLast?_concat _
  have hdup2 : is_duplicate
      (add_to_history { s with stats := statsAfter s.stats .Valid } r job_id now) r job_id
      = true := by
    unfold is_duplicate
    rw [Bool.or_eq_true]
    right
    rw [List.any_eq_true]
    exact ⟨⟨r.nonce, r.hash, job_id, now⟩, hmem, by simp⟩
  unfold validate_result
  rw [hactive2, if_neg h1, hgate2, if_neg h2, hcfg, hdet, hdup2]
  simp

/-- Concrete fixtures for the validator witnesses: a result with nonce
12345 and a nonzero hash that meets the all-0xFF target. -/
def testResult : MiningResult := ⟨12345, ⟨1 :: List.replicate 31 0⟩, none⟩

/-- Easy all-0xFF target. -/
def easyTarget : Hash256 := ⟨List.replicate 32 255⟩

/-- Fresh validator state with the default configuration and one active
job. -/
def testSVState : SVState :=
  ⟨⟨true, 300, 10000, true, 120, true⟩, [], [], ["job1", "job2"], none, ValidationStats.init⟩

/-- Witness for `valid_then_duplicate` at the default configuration. -/
theorem valid_then_duplicate_witness :
    (testSVState.config.detect_duplicates = true) ∧
    (1 ≤ testSVState.config.duplicate_cache_size) ∧
    ((validate_result testSVState testResult testHeader easyTarget "job1" 1000).1
      = ValidationResult.Valid) ∧
    ((validate_result (validate_result testSVState testResult testHeader easyTarget "job1" 1000).2
        testResult testHeader easyTarget "job1" 1000).1 = ValidationResult.Duplicate) :=
  ⟨by decide, by decide, by decide,
   valid_then_duplicate testSVState testResult testHeader easyTarget "job1" 1000
     (by decide) (by decide) (by decide)⟩

/-- C10: a result whose hash equals the hash of a share just recorded as
Valid is rejected as Duplicate even when both its nonce and its job id
differ from the recorded pair: the fast path of duplicate detection keys
on the hash alone, across all jobs.  (The history hypotheses rule out
cache eviction between the two calls.) -/
theorem duplicate_by_hash_across_jobs (s : SVState) (r0 r1 : MiningResult)
    (header : BlockHeader) (target : Hash256) (job0 job1 : String) (now : Nat)
    (hdet : s.config.detect_duplicates = true)
    (hhash : r1.hash = r0.hash)
    (hvalid : (validate_result s r0 header target job0 now).1 = ValidationResult.Valid)
    (hfresh : ∀ e ∈ s.share_history, now - s.config.duplicate_cache_ttl ≤ e.timestamp)
    (hlen : s.share_history.length + 1 ≤ s.config.duplicate_cache_size)
    (hact1 : job1 ∈ s.active_jobs)
    (hgate1 : nonceGateFails s job1 r1.nonce = false) :
    (validate_result (validate_result s r0 header target job0 now).2
      r1 header target job1 now).1 = ValidationResult.Duplicate := by
  unfold validate_result at hvalid
  by_cases h1 : is_job_active s job0 = false
  · rw [if_pos h1] at hvalid
    simp at hvalid
  rw [if_neg h1] at hvalid
  by_cases h2 : nonceGateFails s job0 r0.nonce = true
  · rw [if_pos h2] at hvalid
    simp at hvalid
  rw [if_neg h2] at hvalid
  by_cases h3 : (s.config.detect_duplicates && is_duplicate s r0 job0) = true
  · rw [if_pos h3] at hvalid
    simp at hvalid
  rw [if_neg h3] at hvalid
  by_cases h4 : r0.hash.meets_target target = false
  · rw [if_pos h4] at hvalid
    simp at hvalid
  rw [if_neg h4] at hvalid
  by_cases h5 : (s.config.fast_verify && !(verify_hash_fast r0)) = true
  · rw [if_pos h5] at hvalid
    simp at hvalid
  rw [if_neg h5] at hvalid
  have hsnd : (validate_result s r0 header target job0 now).2
      = add_to_history { s with stats := statsAfter s.stats .Valid } r0 job0 now := by
    unfold validate_result
    rw [if_neg h1, if_neg h2, if_neg h3, if_neg h4, if_neg h5]
  rw [hsnd]
  have hnoop : cleanupHistory (now - s.config.duplicate_cache_ttl)
      s.config.duplicate_cache_size
      (s.share_history ++ [⟨r0.nonce, r0.hash, job0, now⟩])
      (insertHash s.recent_hashes r0.hash)
      = (s.share_history ++ [⟨r0.nonce, r0.hash, job0, now⟩],
         insertHash s.recent_hashes r0.hash) := by
    apply cleanupHistory_noop
    · intro e he
      rcases List.mem_append.mp he with he1 | he2
      · have := hfresh e he1
        omega
      · have : e = (⟨r0.nonce, r0.hash, job0, now⟩ : ShareHistoryEntry) := by simpa using he2
        subst this
        show ¬ now < now - s.config.duplicate_cache_ttl
        omega
    · simp
      omega
  have hhmem : r1.hash ∈ (add_to_history { s with stats := statsAfter s.stats .Valid }
      r0 job0 now).recent_hashes := by
    show r1.hash ∈ (cleanupHistory (now - s.config.duplicate_cache_ttl)
      s.config.duplicate_cache_size
      (s.share_history ++ [⟨r0.nonce, r0.hash, job0, now⟩])
      (insertHash s.recent_hashes r0.hash)).2
    rw [hnoop, hhash]
    exact mem_insertHash s.recent_hashes r0.hash
  have hdup2 : is_duplicate (add_to_history { s with stats := statsAfter s.stats .Valid }
      r0 job0 now) r1 job1 = true := by
    unfold is_duplicate
    rw [Bool.or_eq_true]
    left
    simpa using hhmem
  have hactive2 : is_job_active (add_to_history { s with stats := statsAfter s.stats .Valid }
      r0 job0 now) job1 = true := by
    unfold is_job_active
    have : (add_to_history { s with stats := statsAfter s.stats .Valid }
        r0 job0 now).active_jobs = s.active_jobs := rfl
    rw [this]
    simpa using hact1
  have hgate2 : nonceGateFails (add_to_history { s with stats := statsAfter s.stats .Valid }
      r0 job0 now) job1 r1.nonce = false := by
    unfold nonceGateFails
    have hc : (add_to_history { s with stats := statsAfter s.stats .Valid }
        r0 job0 now).config = s.config := rfl
    have hn : (add_to_history { s with stats := statsAfter s.stats .Valid }
        r0 job0 now).nonce_validator = s.nonce_validator := rfl
    rw [hc, hn]
    unfold nonceGateFails at hgate1
    exact hgate1
  have hcfg : (add_to_history { s with stats := statsAfter s.stats .Valid }
      r0 job0 now).config = s.config := rfl
  unfold validate_result
  rw [hactive2]
  rw [if_neg (by simp)]
  rw [hgate2]
  rw [if_neg (by simp)]
  rw [hcfg, hdet, hdup2]
  simp

/-- Witness for `duplicate_by_hash_across_jobs`: a share accepted for
job1 is replayed with a different nonce under job2 and rejected as
Duplicate on the hash alone. -/
theorem duplicate_by_hash_across_jobs_witness :
    (testSVState.config.detect_duplicates = true) ∧
    ((⟨777, ⟨1 :: List.replicate 31 0⟩, none⟩ : MiningResult).hash = testResult.hash) ∧
    ((validate_result testSVState testResult testHeader easyTarget "job1" 1000).1
      = ValidationResult.Valid) ∧
    (∀ e ∈ testSVState.share_history,
      1000 - testSVState.config.duplicate_cache_ttl ≤ e.timestamp) ∧
    (testSVState.share_history.length + 1 ≤ testSVState.config.duplicate_cache_size) ∧
    ("job2" ∈ testSVState.active_jobs) ∧
    (nonceGateFails testSVState "job2" 777 = false) ∧
    ((validate_result (validate_result testSVState testResult testHeader easyTarget "job1" 1000).2
        (⟨777, ⟨1 :: List.replicate 31 0⟩, none⟩ : MiningResult)
        testHeader easyTarget "job2" 1000).1 = ValidationResult.Duplicate) :=
  ⟨by decide, by decide, by decide, by decide, by decide, by decide, by decide,
   duplicate_by_hash_across_jobs testSVState testResult
     (⟨777, ⟨1 :: List.replicate 31 0⟩, none⟩ : MiningResult)
     testHeader easyTarget "job1" "job2" 1000
     (by decide) (by decide) (by decide) (by decide) (by decide) (by decide) (by decide)⟩

end Mineos
